import Mathlib

/-!
Verification development for the VidChatExtension autocomplete core:
the suggestion cache (src/utils/cache.ts), the suggestion service wrapper
(getSuggestion and friends), the tracking engine (inputCursorTracker.ts),
the adapter registry (editorAdapters/registry.ts) and the editor adapters
(HtmlInputAdapter.ts, GmailAdapter.ts, OverleafAdapter).

JavaScript strings are modelled as Lean String where only equality and
length matter, and as List Char where slicing is reasoned about.
Promises and AbortControllers are modelled by numeric identifiers, with
the asynchronous boundary made explicit: each async operation is split
into its synchronous start phase and its settle phase.
-/

set_option maxHeartbeats 1000000

set_option linter.unusedVariables false

/-- A suggestion request context, the tuple that part_009 builds a cache key
from via JSON.stringify; structurally equal contexts give equal keys, so the
key is modelled as the context itself. -/
structure SuggestionContext where
  textBefore : String
  textSelected : String
  textAfter : String
  fullText : String
  pageContentBefore : String
deriving DecidableEq, Repr

/-- The suggestion service response shape.  The optional JS booleans
(error?, cancelled?) default to false (undefined is falsy); errorMessage is
never consulted by the control flow and is omitted. -/
structure SuggestionResponse where
  suggestion : String
  error : Bool := false
  cancelled : Bool := false
deriving DecidableEq, Repr

/-- cache.ts CacheEntry: result?: T; promise?: Promise of T.  The promise is
modelled by its numeric id. -/
structure CacheEntry where
  result : Option SuggestionResponse := none
  promise : Option Nat := none
deriving DecidableEq, Repr

/-- A JS Map from cache keys to entries, in insertion order. -/
abbrev CacheMap := List (SuggestionContext × CacheEntry)

/-- JS Map.set: replace in place if the key exists (keeping its insertion
position), otherwise append. -/
def mapSet (m : CacheMap) (k : SuggestionContext) (v : CacheEntry) : CacheMap :=
  if m.any (fun p => p.1 = k) then
    m.map (fun p => if p.1 = k then (k, v) else p)
  else
    m ++ [(k, v)]

/-- JS Map.get. -/
def mapGet (m : CacheMap) (k : SuggestionContext) : Option CacheEntry :=
  (m.find? (fun p => p.1 = k)).map Prod.snd

/-- JS Map.delete. -/
def mapDelete (m : CacheMap) (k : SuggestionContext) : CacheMap :=
  m.filter (fun p => p.1 ≠ k)

namespace SuggestionCache

/-- cache.ts cleanup(): if the size exceeds maxSize, delete the first
(size - maxSize) keys in insertion order (FIFO). -/
def cleanup (maxSize : Nat) (m : CacheMap) : CacheMap :=
  if m.length ≤ maxSize then m else m.drop (m.length - maxSize)

/-- cache.ts get(): the settled result if present, else the in-flight
promise if present, else undefined. -/
def get (m : CacheMap) (k : SuggestionContext) : Option (SuggestionResponse ⊕ Nat) :=
  match mapGet m k with
  | none => none
  | some entry =>
    match entry.result with
    | some r => some (Sum.inl r)
    | none =>
      match entry.promise with
      | some pid => some (Sum.inr pid)
      | none => none

/-- cache.ts set(): store a completed result, then cleanup. -/
def set (maxSize : Nat) (m : CacheMap) (k : SuggestionContext) (v : SuggestionResponse) : CacheMap :=
  cleanup maxSize (mapSet m k { result := some v })

/-- cache.ts setPromise(): store an in-flight promise, then cleanup.  The
promise continuations are modelled separately below. -/
def setPromise (maxSize : Nat) (m : CacheMap) (k : SuggestionContext) (pid : Nat) : CacheMap :=
  cleanup maxSize (mapSet m k { promise := some pid })

/-- The then-continuation installed by setPromise: when the promise
resolves, if the entry still exists, store the result on it and delete its
promise field (in place, so the insertion position is kept). -/
def promiseResolved (m : CacheMap) (k : SuggestionContext) (r : SuggestionResponse) : CacheMap :=
  match mapGet m k with
  | some _ => mapSet m k { result := some r, promise := none }
  | none => m

/-- The catch-continuation installed by setPromise: failed promises are
removed from the cache. -/
def promiseRejected (m : CacheMap) (k : SuggestionContext) : CacheMap :=
  mapDelete m k

end SuggestionCache

/-- The characters String.prototype.trim removes (the ASCII ones; the
contexts considered here contain no exotic Unicode whitespace). -/
def isJsSpace (c : Char) : Bool :=
  c = ' ' ∨ c = '\t' ∨ c = '\n' ∨ c = '\r' ∨ c = '\x0b' ∨ c = '\x0c'

/-- JS String.prototype.trim, as a list of characters. -/
def jsTrim (s : String) : List Char :=
  ((s.toList.dropWhile isJsSpace).reverse.dropWhile isJsSpace).reverse

/-- Module state of part_009 (the suggestion service wrapper): the module
level cache, the module level currentAbortController (by id), a counter for
fresh controller ids, and two observers of the external world: how many
service calls were issued, and which controllers were aborted. -/
structure LlmState where
  cache : CacheMap := []
  currentAbortController : Option Nat := none
  nextId : Nat := 0
  serviceCalls : Nat := 0
  aborted : List Nat := []
deriving DecidableEq, Repr

/-- The cache in part_009 is created with maxSize 100. -/
def llmCacheMaxSize : Nat := 100

/-- part_009 cancelCurrentSuggestionRequest(): abort the current controller
if any and clear it. -/
def cancelCurrentSuggestionRequest (s : LlmState) : LlmState :=
  match s.currentAbortController with
  | some a => { s with aborted := s.aborted ++ [a], currentAbortController := none }
  | none => s

/-- What the synchronous phase of getSuggestion produces before any
suspension: a ready response, a joined in-flight promise, or a newly
launched service call. -/
inductive GetSuggestionOutcome where
  | result (r : SuggestionResponse)
  | joinedInFlight (pid : Nat)
  | launched (id : Nat)
deriving DecidableEq, Repr

/-- The synchronous phase of part_009 getSuggestion(context): check the
cache; on a miss run fetchSuggestion up to its await.  fetchSuggestion
returns suggestion "" immediately when textBefore.trim().length < 3 (and
getSuggestion then caches that non-error, non-cancelled result); otherwise
it aborts any previous controller, installs a fresh one and issues the
service call. -/
def getSuggestionStart (s : LlmState) (ctx : SuggestionContext) :
    LlmState × GetSuggestionOutcome :=
  match SuggestionCache.get s.cache ctx with
  | some (Sum.inl r) => (s, GetSuggestionOutcome.result r)
  | some (Sum.inr pid) => (s, GetSuggestionOutcome.joinedInFlight pid)
  | none =>
    if (jsTrim ctx.textBefore).length < 3 then
      let r : SuggestionResponse := { suggestion := "" }
      ({ s with cache := SuggestionCache.set llmCacheMaxSize s.cache ctx r },
       GetSuggestionOutcome.result r)
    else
      let s1 :=
        match s.currentAbortController with
        | some a => { s with aborted := s.aborted ++ [a] }
        | none => s
      let id := s1.nextId
      ({ s1 with
          currentAbortController := some id
          nextId := id + 1
          serviceCalls := s1.serviceCalls + 1 },
       GetSuggestionOutcome.launched id)

/-- How the external service call finishes: a successful completion with a
suggestion string, or a thrown error whose message may contain "aborted". -/
inductive ServiceOutcome where
  | ok (sug : String)
  | err (messageHasAborted : Bool)
deriving DecidableEq, Repr

/-- The settle phase of part_009 fetchSuggestion for the call with
controller id: a call whose controller was aborted rejects with an abort
error (the service honors the cancellation token, spec section 6); the
catch branch maps an error message containing "aborted" to a cancelled
response and anything else to an error response; on every path the module
currentAbortController is cleared when it still belongs to this call. -/
def fetchSuggestionSettle (s : LlmState) (id : Nat) (outcome : ServiceOutcome) :
    LlmState × SuggestionResponse :=
  let eff := if id ∈ s.aborted then ServiceOutcome.err true else outcome
  let s1 :=
    if s.currentAbortController = some id then
      { s with currentAbortController := none }
    else s
  match eff with
  | ServiceOutcome.ok sug => (s1, { suggestion := sug })
  | ServiceOutcome.err hasAborted =>
    if hasAborted then (s1, { suggestion := "", cancelled := true })
    else (s1, { suggestion := "", error := true })

/-- The settle phase of part_009 getSuggestion: after fetchSuggestion
settles, cache the result only when it is neither cancelled nor an error. -/
def getSuggestionSettle (s : LlmState) (ctx : SuggestionContext) (id : Nat)
    (outcome : ServiceOutcome) : LlmState × SuggestionResponse :=
  let sr := fetchSuggestionSettle s id outcome
  if !sr.2.cancelled && !sr.2.error then
    ({ sr.1 with cache := SuggestionCache.set llmCacheMaxSize sr.1.cache ctx sr.2 }, sr.2)
  else sr

/-- The CursorPosition record that updateCursor stores in this.cursorData
(adapter position plus editor context). -/
structure CursorData where
  x : Int := 0
  y : Int := 0
  textBefore : String := ""
  textAfter : String := ""
  textSelected : String := ""
  selectionStart : Nat := 0
  selectionEnd : Nat := 0
  fullText : String := ""
  pageContentBefore : String := ""
deriving DecidableEq, Repr

/-- A pending window.setTimeout created by the debounce in updateCursor:
its timer id, the absolute time it fires at, and the context captured by
the callback closure. -/
structure TimerEntry where
  id : Nat
  fireAt : Nat
  ctx : SuggestionContext
deriving DecidableEq, Repr

/-- window.clearTimeout. -/
def clearTimer (ts : List TimerEntry) (tid : Nat) : List TimerEntry :=
  ts.filter (fun tm => tm.id ≠ tid)

/-- The mutable fields of InputCursorTracker.  Elements and adapters are
identified by numbers.  timers / nextTimerId model the window timer table;
fetchesIssued logs every invocation of this.fetchSuggestion (time at which
it happened and the context passed). -/
structure EngineState where
  focusedElement : Option Nat := none
  currentAdapter : Option Nat := none
  cursorData : Option CursorData := none
  currentSuggestion : String := ""
  suggestionTimeout : Option Nat := none
  isLoadingSuggestion : Bool := false
  isInsertingSuggestion : Bool := false
  isCommandMode : Bool := false
  isVisible : Bool := false
  error : Bool := false
  timers : List TimerEntry := []
  nextTimerId : Nat := 0
  fetchesIssued : List (Nat × SuggestionContext) := []
deriving DecidableEq, Repr

/-- The whole single-threaded system the tracker lives in: the tracker
instance plus the part_009 module state. -/
structure SysState where
  engine : EngineState := {}
  llm : LlmState := {}
deriving DecidableEq, Repr

/-- inputCursorTracker.ts TYPE_DELAY_MS. -/
def TYPE_DELAY_MS : Nat := 300

/-- InputCursorTracker.clearUI(): cancel the current request, clear all UI
state and the pending debounce timer (the element refs are kept). -/
def clearUISys (s : SysState) : SysState :=
  { engine :=
      { s.engine with
          currentSuggestion := ""
          isVisible := false
          isCommandMode := false
          error := false
          isLoadingSuggestion := false
          timers :=
            match s.engine.suggestionTimeout with
            | some tid => clearTimer s.engine.timers tid
            | none => s.engine.timers
          suggestionTimeout := none }
    llm := cancelCurrentSuggestionRequest s.llm }

/-- InputCursorTracker.reset(): clearUI plus dropping the element, adapter
and context references. -/
def resetSys (s : SysState) : SysState :=
  let s1 := clearUISys s
  { s1 with
      engine :=
        { s1.engine with focusedElement := none, currentAdapter := none, cursorData := none } }

/-- What the DOM reads inside updateCursor can observe: whether
document.contains(element) holds, whether element.offsetParent is non-null,
and the combined result of adapter.getCursorPosition +
adapter.getEditorContext (none when one of them throws). -/
structure DomReadEnv where
  inDocument : Bool := true
  hasOffsetParent : Bool := true
  read : Option CursorData := none
deriving DecidableEq, Repr

/-- Rebuild the SuggestionContext that the debounce callback closure
captures from the context read by updateCursor. -/
def cdToCtx (cd : CursorData) : SuggestionContext :=
  { textBefore := cd.textBefore
    textSelected := cd.textSelected
    textAfter := cd.textAfter
    fullText := cd.fullText
    pageContentBefore := cd.pageContentBefore }

/-- The website prefix the debounce callback adds to pageContentBefore
before calling this.fetchSuggestion. -/
def withDomain (ctx : SuggestionContext) (domain : String) : SuggestionContext :=
  { ctx with pageContentBefore := "website: " ++ domain ++ "\n" ++ ctx.pageContentBefore }

/-- The synchronous phase of InputCursorTracker.fetchSuggestion(context):
set the loading/visible flags, render, cancel the current request and run
getSuggestion up to its asynchronous boundary.  The invocation is logged in
fetchesIssued. -/
def fetchSuggestionStart (s : SysState) (t : Nat) (ctx : SuggestionContext) : SysState :=
  let e1 :=
    { s.engine with
        isLoadingSuggestion := true
        isVisible := true
        fetchesIssued := s.engine.fetchesIssued ++ [(t, ctx)] }
  let llm1 := cancelCurrentSuggestionRequest s.llm
  let llm2 := (getSuggestionStart llm1 ctx).1
  { engine := e1, llm := llm2 }

/-- InputCursorTracker.updateCursor().  Returns the next state plus whether
the catch branch scheduled the 200 ms retry.  The try block: missing
element/adapter, a detached element or a null offsetParent reset the
tracker; a throwing read (env.read = none) leaves the state unchanged and
schedules the retry; a successful read stores the cursor data, restarts the
debounce timer and (outside command mode) arms a new TYPE_DELAY_MS timer
whose closure captures the context just read. -/
def updateCursor (s : SysState) (env : DomReadEnv) (now : Nat) : SysState × Bool :=
  if s.engine.focusedElement = none ∨ s.engine.currentAdapter = none ∨
      env.inDocument = false ∨ env.hasOffsetParent = false then
    (resetSys s, false)
  else
    match env.read with
    | none => (s, true)
    | some cd =>
      let e1 := { s.engine with cursorData := some cd }
      let timers1 :=
        match e1.suggestionTimeout with
        | some tid => clearTimer e1.timers tid
        | none => e1.timers
      if e1.isCommandMode then
        ({ s with engine := { e1 with timers := timers1 } }, false)
      else
        let tid := e1.nextTimerId
        ({ s with
            engine :=
              { e1 with
                  timers := timers1 ++ [⟨tid, now + TYPE_DELAY_MS, cdToCtx cd⟩]
                  suggestionTimeout := some tid
                  nextTimerId := tid + 1 } },
         false)

/-- The retry scheduled by updateCursor's catch branch, firing 200 ms
later: re-run updateCursor only if an element is still tracked and it is
still document.activeElement; otherwise do nothing. -/
def updateCursorRetryFire (s : SysState) (activeElement : Option Nat)
    (env : DomReadEnv) (now : Nat) : SysState × Bool :=
  if s.engine.focusedElement ≠ none ∧ activeElement = s.engine.focusedElement then
    updateCursor s env now
  else (s, false)

/-- A debounce timer firing: a cleared timer id is a no-op; an armed timer
is consumed and its callback runs fetchSuggestion only if an element is
still tracked and is still document.activeElement, passing the captured
context with the website prefix. -/
def fireSuggestionTimer (s : SysState) (tid : Nat) (activeElement : Option Nat)
    (domain : String) : SysState :=
  match s.engine.timers.find? (fun tm => tm.id = tid) with
  | none => s
  | some tm =>
    let s1 := { s with engine := { s.engine with timers := clearTimer s.engine.timers tid } }
    if s1.engine.focusedElement ≠ none ∧ activeElement = s1.engine.focusedElement then
      fetchSuggestionStart s1 tm.fireAt (withDomain tm.ctx domain)
    else s1

/-- The continuation of InputCursorTracker.fetchSuggestion after the
awaited getSuggestion resolves: a cancelled response is forgotten (early
return); otherwise the suggestion, loading flag, visibility and error flag
are updated from the response. -/
def applySuggestionResponse (e : EngineState) (r : SuggestionResponse) : EngineState :=
  if r.cancelled then e
  else
    let e1 := { e with currentSuggestion := r.suggestion, isLoadingSuggestion := false }
    let hasValidSuggestion := r.suggestion ≠ ""
    { e1 with
        isVisible := e1.focusedElement.isSome && (decide hasValidSuggestion || r.error)
        error := r.error }

/-- An HTMLInputElement / HTMLTextAreaElement: its value and native
selectionStart/selectionEnd (null on some input types). -/
structure InputState where
  value : List Char
  selectionStart : Option Nat := none
  selectionEnd : Option Nat := none
deriving DecidableEq, Repr

/-- The EditorContext record adapters return (the element handle is left
implicit; texts are lists of characters). -/
structure AdapterContext where
  textBefore : List Char
  textAfter : List Char
  textSelected : List Char
  fullText : List Char
  selectionStart : Nat
  selectionEnd : Nat
  pageContentBefore : String
deriving DecidableEq, Repr

namespace HtmlInputAdapter

/-- HtmlInputAdapter.getEditorContext: s and e are selectionStart ?? 0 and
selectionEnd ?? 0; value.slice(0, s), value.slice(hasSelection ? e : s) and
value.slice(s, e) become take/drop on the character list.  The
pageContentBefore computed by walking the page DOM is a parameter. -/
def getEditorContext (inp : InputState) (pageContentBefore : String) : AdapterContext :=
  let s := inp.selectionStart.getD 0
  let e := inp.selectionEnd.getD 0
  let hasSelection := s ≠ e
  { textBefore := inp.value.take s
    textAfter := inp.value.drop (if hasSelection then e else s)
    textSelected := if hasSelection then (inp.value.take e).drop s else []
    fullText := inp.value
    selectionStart := s
    selectionEnd := e
    pageContentBefore := pageContentBefore }

/-- HTMLInputElement.setSelectionRange: the DOM clamps both offsets to the
value length. -/
def setSelectionRange (inp : InputState) (s e : Nat) : InputState :=
  { inp with
      selectionStart := some (min s inp.value.length)
      selectionEnd := some (min e inp.value.length) }

/-- HtmlInputAdapter.insertText: every branch (execCommand insertText,
setRangeText, manual value splice) replaces the current selection with the
text and collapses the caret to just after it; with no selection
information the method does nothing. -/
def insertText (inp : InputState) (text : List Char) : InputState :=
  match inp.selectionStart, inp.selectionEnd with
  | some s, some e =>
    { value := inp.value.take s ++ text ++ inp.value.drop e
      selectionStart := some (s + text.length)
      selectionEnd := some (s + text.length) }
  | _, _ => inp

/-- HtmlInputAdapter.setCursorAndInsert: focus, setSelectionRange at the
given offsets, then insertText. -/
def setCursorAndInsert (inp : InputState) (selectionStart selectionEnd : Nat)
    (text : List Char) : InputState :=
  insertText (setSelectionRange inp selectionStart selectionEnd) text

end HtmlInputAdapter

/-- The onAccept callback installed by InputCursorTracker.render: it calls
the adapter's setCursorAndInsert with the selection offsets of the stored
this.cursorData (captured when the suggestion was fetched), not offsets
recomputed from the element's current selection. -/
def onAcceptSuggestion (cd : CursorData) (inp : InputState) (suggestion : List Char) :
    InputState :=
  HtmlInputAdapter.setCursorAndInsert inp cd.selectionStart cd.selectionEnd suggestion

/-- A position inside a Gmail compose region: the index of a text node (in
tree order below the editable root) and a character offset inside it. -/
structure GmailPos where
  node : Nat
  off : Nat
deriving DecidableEq, Repr

/-- A Gmail compose region: the text nodes below the editable root in tree
order, and the native selection if any. -/
structure GmailDom where
  nodes : List (List Char)
  selection : Option (GmailPos × GmailPos)
deriving DecidableEq, Repr

/-- The linear character offset of a position: the total length of the
text nodes before it plus the in-node offset. -/
def gmailOffset (nodes : List (List Char)) (p : GmailPos) : Nat :=
  ((nodes.take p.node).map List.length).sum + p.off

namespace GmailAdapter

/-- GmailAdapter.getEditorContext.  With no selection it falls back to
empty texts around element.textContent.  With a selection, beforeRange
(editable root start to selection start) reads the text before, afterRange
(selection end to the end of the last text node) reads the text after, and
range.toString() the selected text; a DOM range's string value is the
concatenation of the text-node content it contains, i.e. a slice of the
concatenated text nodes at the linear offsets of its endpoints.
textContent of the root is that same concatenation. -/
def getEditorContext (d : GmailDom) (pageContentBefore : String) : AdapterContext :=
  let textContent := d.nodes.flatten
  match d.selection with
  | none =>
    { textBefore := []
      textAfter := []
      textSelected := []
      fullText := textContent
      selectionStart := 0
      selectionEnd := 0
      pageContentBefore := pageContentBefore }
  | some (ps, pe) =>
    let textBefore := textContent.take (gmailOffset d.nodes ps)
    let textSelected := (textContent.take (gmailOffset d.nodes pe)).drop (gmailOffset d.nodes ps)
    let textAfter := textContent.drop (gmailOffset d.nodes pe)
    { textBefore := textBefore
      textAfter := textAfter
      textSelected := textSelected
      fullText := textContent
      selectionStart := textBefore.length
      selectionEnd := textBefore.length + textSelected.length
      pageContentBefore := pageContentBefore }

end GmailAdapter

/-- An entry of the adapter registry: id, priority and the canHandle
predicate over (numbered) elements. -/
structure AdapterSpec where
  id : String
  priority : Int
  canHandle : Nat → Bool

namespace EditorAdapterRegistry

/-- registry.ts register(): findIndex of the first registered adapter with
strictly smaller priority, splice the new adapter in before it, or push at
the end when there is none. -/
def register : List AdapterSpec → AdapterSpec → List AdapterSpec
  | [], a => [a]
  | b :: l, a => if b.priority < a.priority then a :: b :: l else b :: register l a

/-- The registry contents after a sequence of register calls, starting
from the empty singleton. -/
def registerAll (regs : List AdapterSpec) : List AdapterSpec :=
  regs.foldl register []

/-- registry.ts findAdapter(): the first registered adapter whose
canHandle returns true, or null. -/
def findAdapter (l : List AdapterSpec) (el : Nat) : Option AdapterSpec :=
  l.find? (fun ad => ad.canHandle el)

end EditorAdapterRegistry

/-- A text node of a CodeMirror .cm-line, as its character content. -/
abbrev CMNode := List Char

/-- A .cm-line: its text nodes in tree order. -/
abbrev CMLine := List CMNode

/-- The .cm-line elements of an Overleaf .cm-content editor, in order. -/
abbrev CMDoc := List CMLine

/-- A DOM position the Overleaf adapter produces or consumes: either
(text node of a line, character offset into it) or a line element itself
(used for empty lines, with child offset 0). -/
inductive CMAnchor where
  | text (line node off : Nat)
  | lineElem (line : Nat)
deriving DecidableEq, Repr

/-- The mutable locals of OverleafAdapter.setSelection's loop: the running
character offset, the nodes found so far for start and end, and the last
text node seen (with its content length). -/
structure SetSelWalk where
  offset : Nat
  startNode : Option CMAnchor
  endNode : Option CMAnchor
  lastTextNode : Option (Nat × Nat × Nat)
deriving DecidableEq, Repr

/-- The inner while loop of OverleafAdapter.setSelection over the text
nodes of line li (first node index nj): a node catches a position p when
startNode/endNode is still null and offset ≤ p ≤ offset + length; as soon
as both are found the range is returned (Except.error carries the early
return). -/
def setSelNodes (startPos endPos li : Nat) (nj : Nat) (nodes : List CMNode)
    (w : SetSelWalk) : Except (CMAnchor × CMAnchor) SetSelWalk :=
  match nodes with
  | [] => Except.ok w
  | n :: rest =>
    let length := n.length
    let nodeEnd := w.offset + length
    let s1 :=
      if w.startNode = none ∧ w.offset ≤ startPos ∧ startPos ≤ nodeEnd then
        some (CMAnchor.text li nj (startPos - w.offset))
      else w.startNode
    let e1 :=
      if w.endNode = none ∧ w.offset ≤ endPos ∧ endPos ≤ nodeEnd then
        some (CMAnchor.text li nj (endPos - w.offset))
      else w.endNode
    match s1, e1 with
    | some a, some b => Except.error (a, b)
    | s1, e1 =>
      setSelNodes startPos endPos li (nj + 1) rest
        { offset := nodeEnd
          startNode := s1
          endNode := e1
          lastTextNode := some (li, nj, length) }

/-- The empty-line handling of OverleafAdapter.setSelection (the
hasTextNodes = false case): a position equal to the line's start offset is
mapped to the line element itself. -/
def setSelEmptyLine (startPos endPos li lineStartOffset : Nat) (w1 : SetSelWalk) :
    Except (CMAnchor × CMAnchor) SetSelWalk :=
  let s1 :=
    if w1.startNode = none ∧ startPos = lineStartOffset then
      some (CMAnchor.lineElem li)
    else w1.startNode
  let e1 :=
    if w1.endNode = none ∧ endPos = lineStartOffset then
      some (CMAnchor.lineElem li)
    else w1.endNode
  match s1, e1 with
  | some a, some b => Except.error (a, b)
  | s1, e1 => Except.ok { w1 with startNode := s1, endNode := e1 }

/-- The implicit-newline handling of OverleafAdapter.setSelection, run
before all but the last line: a position equal to the newline offset is
mapped to the end of the last text node seen; then the newline is
counted. -/
def setSelNewline (startPos endPos : Nat) (w2 : SetSelWalk) :
    Except (CMAnchor × CMAnchor) SetSelWalk :=
  let newlinePos := w2.offset
  let s1 :=
    match w2.startNode, w2.lastTextNode with
    | none, some (tl, tn, tlen) =>
      if startPos = newlinePos then some (CMAnchor.text tl tn tlen) else none
    | sn, _ => sn
  let e1 :=
    match w2.endNode, w2.lastTextNode with
    | none, some (tl, tn, tlen) =>
      if endPos = newlinePos then some (CMAnchor.text tl tn tlen) else none
    | en, _ => en
  match s1, e1 with
  | some a, some b => Except.error (a, b)
  | s1, e1 => Except.ok { w2 with offset := w2.offset + 1, startNode := s1, endNode := e1 }

/-- One iteration of OverleafAdapter.setSelection's outer for loop. -/
def setSelLine (startPos endPos numLines li : Nat) (nodes : List CMNode)
    (w : SetSelWalk) : Except (CMAnchor × CMAnchor) SetSelWalk :=
  let lineStartOffset := w.offset
  match setSelNodes startPos endPos li 0 nodes w with
  | Except.error r => Except.error r
  | Except.ok w1 =>
    match
      (if nodes.isEmpty then setSelEmptyLine startPos endPos li lineStartOffset w1
       else Except.ok w1) with
    | Except.error r => Except.error r
    | Except.ok w2 =>
      if li + 1 < numLines then setSelNewline startPos endPos w2
      else Except.ok w2

/-- The outer for loop of OverleafAdapter.setSelection, from line li on. -/
def setSelLines (startPos endPos numLines li : Nat) (lines : List CMLine)
    (w : SetSelWalk) : Except (CMAnchor × CMAnchor) SetSelWalk :=
  match lines with
  | [] => Except.ok w
  | l :: rest =>
    match setSelLine startPos endPos numLines li l w with
    | Except.error r => Except.error r
    | Except.ok w1 => setSelLines startPos endPos numLines (li + 1) rest w1

namespace OverleafAdapter

/-- OverleafAdapter.setSelection: walk the .cm-line elements; return the
native range (start anchor, end anchor) as soon as both positions are
resolved; return false (none) when there are no lines or the walk ends
without resolving both. -/
def setSelection (doc : CMDoc) (startPos endPos : Nat) : Option (CMAnchor × CMAnchor) :=
  if doc.isEmpty then none
  else
    match setSelLines startPos endPos doc.length 0 doc
        { offset := 0, startNode := none, endNode := none, lastTextNode := none } with
    | Except.error r => some r
    | Except.ok _ => none

end OverleafAdapter

/-- The mutable locals of OverleafAdapter.getSelectionOffsets: the running
offset and the start/end results (-1 encoded as none). -/
structure GetOffWalk where
  offset : Nat
  startv : Option Nat
  endv : Option Nat
deriving DecidableEq, Repr

/-- Whether an anchor's container is the text node (li, nj). -/
def anchorIsTextOf (a : CMAnchor) (li nj : Nat) : Bool :=
  match a with
  | CMAnchor.text l n _ => l = li ∧ n = nj
  | CMAnchor.lineElem _ => false

/-- The range offset stored in an anchor (range.startOffset /
range.endOffset for a text-node container). -/
def anchorTextOff (a : CMAnchor) : Nat :=
  match a with
  | CMAnchor.text _ _ o => o
  | CMAnchor.lineElem _ => 0

/-- The inner while loop of OverleafAdapter.getSelectionOffsets over the
text nodes of line li: when a node is the range's start/end container the
offset is resolved as running offset + range offset; as soon as both are
resolved the pair is returned. -/
def getOffNodes (a b : CMAnchor) (li nj : Nat) (nodes : List CMNode)
    (w : GetOffWalk) : Except (Nat × Nat) GetOffWalk :=
  match nodes with
  | [] => Except.ok w
  | n :: rest =>
    let length := n.length
    let s1 := if anchorIsTextOf a li nj then some (w.offset + anchorTextOff a) else w.startv
    let e1 := if anchorIsTextOf b li nj then some (w.offset + anchorTextOff b) else w.endv
    match s1, e1 with
    | some x, some y => Except.error (x, y)
    | s1, e1 => getOffNodes a b li (nj + 1) rest { offset := w.offset + length, startv := s1, endv := e1 }

/-- The tail of one getSelectionOffsets line iteration: the
line-element-container check, the early return when both offsets are
resolved, and the newline accounting before all but the last line. -/
def getOffLineTail (a b : CMAnchor) (numLines li lineStartOffset : Nat)
    (w1 : GetOffWalk) : Except (Nat × Nat) GetOffWalk :=
  let s1 :=
    if w1.startv = none ∧ a = CMAnchor.lineElem li then some lineStartOffset else w1.startv
  let e1 :=
    if w1.endv = none ∧ b = CMAnchor.lineElem li then some lineStartOffset else w1.endv
  match s1, e1 with
  | some x, some y => Except.error (x, y)
  | s1, e1 =>
    if li + 1 < numLines then
      Except.ok { w1 with offset := w1.offset + 1, startv := s1, endv := e1 }
    else
      Except.ok { w1 with startv := s1, endv := e1 }

/-- One iteration of OverleafAdapter.getSelectionOffsets' outer loop. -/
def getOffLine (a b : CMAnchor) (numLines li : Nat) (nodes : List CMNode)
    (w : GetOffWalk) : Except (Nat × Nat) GetOffWalk :=
  let lineStartOffset := w.offset
  match getOffNodes a b li 0 nodes w with
  | Except.error r => Except.error r
  | Except.ok w1 => getOffLineTail a b numLines li lineStartOffset w1

/-- The outer loop of OverleafAdapter.getSelectionOffsets. -/
def getOffLines (a b : CMAnchor) (numLines li : Nat) (lines : List CMLine)
    (w : GetOffWalk) : Except (Nat × Nat) GetOffWalk :=
  match lines with
  | [] => Except.ok w
  | l :: rest =>
    match getOffLine a b numLines li l w with
    | Except.error r => Except.error r
    | Except.ok w1 => getOffLines a b numLines (li + 1) rest w1

namespace OverleafAdapter

/-- OverleafAdapter.getSelectionOffsets for a native range given by its
start/end anchors: walk the lines; on the fallthrough return
(max 0 start, max 0 (end ≥ 0 ? end : start)). -/
def getSelectionOffsets (doc : CMDoc) (a b : CMAnchor) : Nat × Nat :=
  match getOffLines a b doc.length 0 doc { offset := 0, startv := none, endv := none } with
  | Except.error r => r
  | Except.ok w =>
    let s := w.startv.getD 0
    let e := match w.endv with | some v => v | none => s
    (s, e)

/-- OverleafAdapter getFullTextWithNewlines: the .cm-line text contents
joined by single newlines (a line's textContent is the concatenation of
its text nodes). -/
def getFullTextWithNewlines (doc : CMDoc) : List Char :=
  List.intercalate ['\n'] (doc.map List.flatten)

/-- OverleafAdapter.getEditorContext: with no selection, empty textBefore
and the full text as textAfter; with a selection resolved to offsets
(start, end), slices of the full text. -/
def getEditorContext (doc : CMDoc) (selection : Option (CMAnchor × CMAnchor))
    (pageContentBefore : String) : AdapterContext :=
  let fullText := getFullTextWithNewlines doc
  match selection with
  | none =>
    { textBefore := []
      textAfter := fullText
      textSelected := []
      fullText := fullText
      selectionStart := 0
      selectionEnd := 0
      pageContentBefore := pageContentBefore }
  | some (ra, rb) =>
    let se := getSelectionOffsets doc ra rb
    { textBefore := fullText.take se.1
      textAfter := fullText.drop se.2
      textSelected := (fullText.take se.2).drop se.1
      fullText := fullText
      selectionStart := se.1
      selectionEnd := se.2
      pageContentBefore := pageContentBefore }

end OverleafAdapter

/-- The character length of a .cm-line (sum of its text node lengths). -/
def lineLen (l : CMLine) : Nat := (l.map List.length).sum

/-- The linear offset at which line i starts (each earlier line contributes
its length plus one implicit newline). -/
def docStart (doc : CMDoc) (i : Nat) : Nat :=
  ((doc.take i).map (fun l => lineLen l + 1)).sum

/-- The linear offset at which text node j of line i starts. -/
def nodeStart (doc : CMDoc) (i j : Nat) : Nat :=
  docStart doc i + (((doc.getD i []).take j).map List.length).sum

/-- The linear offset denoted by an anchor. -/
def anchorOffset (doc : CMDoc) : CMAnchor → Nat
  | CMAnchor.text l n o => nodeStart doc l n + o
  | CMAnchor.lineElem l => docStart doc l

/-- An anchor whose container exists in the document and whose offset is
within its container. -/
def validAnchor (doc : CMDoc) : CMAnchor → Prop
  | CMAnchor.text l n o =>
    l < doc.length ∧ n < (doc.getD l []).length ∧ o ≤ ((doc.getD l []).getD n []).length
  | CMAnchor.lineElem l => l < doc.length

/-- The request of the C1 scenario: textBefore "hell", empty selection and
textAfter, page context "x". -/
def ctxHell : SuggestionContext :=
  { textBefore := "hell", textSelected := "", textAfter := "", fullText := "hell"
    pageContentBefore := "x" }

/-- A request whose textBefore trims to a single character. -/
def ctxShort : SuggestionContext :=
  { textBefore := " a ", textSelected := "", textAfter := "", fullText := " a "
    pageContentBefore := "p" }

/-- Cache key A of the FIFO eviction scenario. -/
def ctxA : SuggestionContext :=
  { textBefore := "A", textSelected := "", textAfter := "", fullText := "A"
    pageContentBefore := "" }

/-- Cache key B of the FIFO eviction scenario. -/
def ctxB : SuggestionContext :=
  { textBefore := "B", textSelected := "", textAfter := "", fullText := "B"
    pageContentBefore := "" }

/-- Cache key C of the FIFO eviction scenario. -/
def ctxC : SuggestionContext :=
  { textBefore := "C", textSelected := "", textAfter := "", fullText := "C"
    pageContentBefore := "" }

/-- A resolved value for key A. -/
def respA : SuggestionResponse := { suggestion := "a" }

/-- A resolved value for key B. -/
def respB : SuggestionResponse := { suggestion := "b" }

/-- A resolved value for key C. -/
def respC : SuggestionResponse := { suggestion := "c" }

/-- The cache holding A and B (max size 2), inserted in that order. -/
def cacheAB : CacheMap :=
  SuggestionCache.set 2 (SuggestionCache.set 2 [] ctxA respA) ctxB respB

/-- A sample context snapshot used in tracker scenarios. -/
def cdSample : CursorData :=
  { textBefore := "hello wor", fullText := "hello wor", selectionStart := 9
    selectionEnd := 9, pageContentBefore := "page" }

/-- A second context snapshot (after one more keystroke). -/
def cdSample2 : CursorData :=
  { textBefore := "hello worl", fullText := "hello worl", selectionStart := 10
    selectionEnd := 10, pageContentBefore := "page" }

/-- A tracker system state tracking element 0 with adapter 0 and a clean
engine otherwise. -/
def trackedSys : SysState :=
  { engine := { focusedElement := some 0, currentAdapter := some 0, cursorData := some cdSample } }

/-- A DOM read environment in which the element is attached and visible
but reading the cursor position or context throws. -/
def envThrow : DomReadEnv := { inDocument := true, hasOffsetParent := true, read := none }

/-- A DOM read environment in which reading succeeds with cdSample2. -/
def envReadOk : DomReadEnv := { inDocument := true, hasOffsetParent := true, read := some cdSample2 }

/-- The Gmail compose region of the C3 counterexample: one text node
"abc", no native selection. -/
def gmailAbc : GmailDom := { nodes := [("abc").toList], selection := none }

/-- The two-adapter scenario of C8: an adapter with priority 15 and one
with priority 0, both of which claim every element. -/
def hiAdapter : AdapterSpec :=
  { id := "overleaf", priority := 15, canHandle := fun _ => true }

/-- The priority-0 adapter of the C8 scenario. -/
def loAdapter : AdapterSpec :=
  { id := "html-input", priority := 0, canHandle := fun _ => true }

/-- The cursor data captured at fetch time in the C9 scenario: caret at
offset 11 of "My favorite". -/
def cdFavorite : CursorData :=
  { textBefore := "My favorite", fullText := "My favorite", selectionStart := 11
    selectionEnd := 11 }

/-- The input element of the C9 scenario, whose current selection has
moved to offset 0 since the fetch. -/
def favInput : InputState :=
  { value := ("My favorite").toList, selectionStart := some 0, selectionEnd := some 0 }

/-- The Overleaf document of the C4 witness: line "ab", an empty line,
line "c". -/
def cmDocW : CMDoc := [[("ab").toList], [], [("c").toList]]

/-- The Surface Context invariant of spec section 3: the three text parts
concatenate to the full text and the selection offsets are ordered and in
range. -/
def ctxInvariant (c : AdapterContext) : Prop :=
  c.textBefore ++ c.textSelected ++ c.textAfter = c.fullText ∧
  c.selectionStart ≤ c.selectionEnd ∧ c.selectionEnd ≤ c.fullText.length

/-- A Gmail compose region with one text node "abc" and the range
selecting its second character. -/
def gmailSel : GmailDom :=
  { nodes := [("abc").toList]
    selection := some ({ node := 0, off := 1 }, { node := 0, off := 2 }) }

/-- The getSelectionOffsets walk visits text nodes in (line, node) order
and a line element after that line's nodes; an anchor is still pending at
walk position (li, nj) when its container has not been visited yet. -/
def pendingAt (c : CMAnchor) (li nj : Nat) : Prop :=
  match c with
  | CMAnchor.text l n _ => li < l ∨ (l = li ∧ nj ≤ n)
  | CMAnchor.lineElem l => li ≤ l

/- ===================  Theorems  =================== -/

theorem mapGet_eq_none_iff (m : CacheMap) (k : SuggestionContext) :
    mapGet m k = none ↔ ∀ p ∈ m, p.1 ≠ k := by
  simp [mapGet, List.find?_eq_none]

theorem mapSet_fresh (m : CacheMap) (k : SuggestionContext) (v : CacheEntry)
    (h : mapGet m k = none) : mapSet m k v = m ++ [(k, v)] := by
  have hall := (mapGet_eq_none_iff m k).mp h
  unfold mapSet
  rw [if_neg]
  simp only [List.any_eq_true, decide_eq_true_eq]
  rintro ⟨p, hp, hpk⟩
  exact hall p hp hpk

theorem mapGet_mapSet_self (m : CacheMap) (k : SuggestionContext) (v : CacheEntry) :
    mapGet (mapSet m k v) k = some v := by
  unfold mapSet
  by_cases hany : m.any (fun p => p.1 = k)
  · rw [if_pos hany]
    induction m with
    | nil => simp at hany
    | cons p m ih =>
      by_cases hpk : p.1 = k
      · simp [mapGet, hpk]
      · simp only [List.any_cons, Bool.or_eq_true, decide_eq_true_eq] at hany
        rcases hany with h | h
        · exact absurd h hpk
        · simpa [mapGet, hpk] using ih h
  · rw [if_neg hany]
    induction m with
    | nil => simp [mapGet]
    | cons p m ih =>
      simp only [List.any_cons, Bool.or_eq_true, decide_eq_true_eq, not_or] at hany
      have := ih (by simpa using hany.2)
      simpa [mapGet, hany.1] using this

theorem mapSet_length_le (m : CacheMap) (k : SuggestionContext) (v : CacheEntry) :
    (mapSet m k v).length ≤ m.length + 1 := by
  unfold mapSet
  split
  · simp
  · simp

theorem get_set_self (maxSize : Nat) (m : CacheMap) (k : SuggestionContext)
    (v : SuggestionResponse) (hlen : m.length < maxSize) :
    SuggestionCache.get (SuggestionCache.set maxSize m k v) k = some (Sum.inl v) := by
  unfold SuggestionCache.set SuggestionCache.cleanup
  rw [if_pos (le_trans (mapSet_length_le m k _) hlen)]
  unfold SuggestionCache.get
  rw [mapGet_mapSet_self]

theorem get_setPromise_self (maxSize : Nat) (m : CacheMap) (k : SuggestionContext)
    (pid : Nat) (hlen : m.length < maxSize) :
    SuggestionCache.get (SuggestionCache.setPromise maxSize m k pid) k = some (Sum.inr pid) := by
  unfold SuggestionCache.setPromise SuggestionCache.cleanup
  rw [if_pos (le_trans (mapSet_length_le m k _) hlen)]
  unfold SuggestionCache.get
  rw [mapGet_mapSet_self]

theorem get_promiseResolved_self (m : CacheMap) (k : SuggestionContext)
    (r : SuggestionResponse) (e : CacheEntry) (h : mapGet m k = some e) :
    SuggestionCache.get (SuggestionCache.promiseResolved m k r) k = some (Sum.inl r) := by
  unfold SuggestionCache.promiseResolved
  rw [h]
  unfold SuggestionCache.get
  rw [mapGet_mapSet_self]

theorem mapGet_mapDelete_self (m : CacheMap) (k : SuggestionContext) :
    mapGet (mapDelete m k) k = none := by
  rw [mapGet_eq_none_iff]
  intro p hp
  have := List.of_mem_filter hp
  simpa using this

/-- Claim C7: for every cache configured with maximum size M, an insertion
of a fresh key that pushes the entry count above M drops the oldest
insertion-order entries until exactly M remain (FIFO): the resulting map is
the suffix of length M of the old entries followed by the new one. -/
theorem claim_C7_fifo_eviction (maxSize : Nat) (m : CacheMap) (k : SuggestionContext)
    (v : SuggestionResponse) (hfresh : mapGet m k = none) (hfull : maxSize ≤ m.length) :
    SuggestionCache.set maxSize m k v =
      (m ++ [(k, ({ result := some v, promise := none } : CacheEntry))]).drop (m.length + 1 - maxSize) ∧
    (SuggestionCache.set maxSize m k v).length = maxSize := by
  unfold SuggestionCache.set SuggestionCache.cleanup
  rw [mapSet_fresh m k _ hfresh]
  rw [if_neg (by simp; omega)]
  constructor
  · simp
  · simp
    omega

/-- Witness for C7: with max size 2 and keys A, B, C inserted in that
order (all resolved), exactly B and C remain. -/
theorem claim_C7_fifo_eviction_witness :
    mapGet cacheAB ctxC = none ∧ 2 ≤ cacheAB.length ∧
    SuggestionCache.set 2 cacheAB ctxC respC =
      (cacheAB ++ [(ctxC, ({ result := some respC, promise := none } : CacheEntry))]).drop (cacheAB.length + 1 - 2) ∧
    SuggestionCache.set 2 cacheAB ctxC respC =
      [(ctxB, ({ result := some respB, promise := none } : CacheEntry)),
       (ctxC, ({ result := some respC, promise := none } : CacheEntry))] :=
  ⟨by decide, by decide,
   (claim_C7_fifo_eviction 2 cacheAB ctxC respC (by decide) (by decide)).1,
   by decide⟩

/-- Claim C10: when the request's textBefore trims to fewer than 3
characters and the cache misses, getSuggestion returns the empty
suggestion without touching the abort controller, without aborting
anything and without a service call, and that empty non-error result is
cached under the request fingerprint. -/
theorem claim_C10_min_length_gate (s : LlmState) (ctx : SuggestionContext)
    (hmiss : SuggestionCache.get s.cache ctx = none)
    (hshort : (jsTrim ctx.textBefore).length < 3)
    (hlen : s.cache.length < llmCacheMaxSize) :
    getSuggestionStart s ctx =
      ({ s with cache := SuggestionCache.set llmCacheMaxSize s.cache ctx { suggestion := "" } },
       GetSuggestionOutcome.result { suggestion := "" }) ∧
    SuggestionCache.get (getSuggestionStart s ctx).1.cache ctx =
      some (Sum.inl { suggestion := "" }) := by
  have heq : getSuggestionStart s ctx =
      ({ s with cache := SuggestionCache.set llmCacheMaxSize s.cache ctx { suggestion := "" } },
       GetSuggestionOutcome.result { suggestion := "" }) := by
    simp only [getSuggestionStart, hmiss]
    rw [if_pos hshort]
  refine ⟨heq, ?_⟩
  rw [heq]
  exact get_set_self _ _ _ _ hlen

/-- Witness for C10: the request with textBefore " a " on the initial
module state. -/
theorem claim_C10_min_length_gate_witness :
    SuggestionCache.get ({} : LlmState).cache ctxShort = none ∧
    (jsTrim ctxShort.textBefore).length < 3 ∧
    getSuggestionStart {} ctxShort =
      ({ ({} : LlmState) with
          cache := SuggestionCache.set llmCacheMaxSize ({} : LlmState).cache ctxShort { suggestion := "" } },
       GetSuggestionOutcome.result { suggestion := "" }) :=
  ⟨by decide, by decide,
   (claim_C10_min_length_gate {} ctxShort (by decide) (by decide) (by decide)).1⟩

/-- Counterexample to claim C1: issuing the request with textBefore "hell"
and page context "x" twice concurrently (the second start before the first
settles), the cache holds no entry at all after the first start (no
pending handle is stored), the second start launches a second service call
instead of joining the first, and two service calls are made, not one. -/
theorem claim_C1_counterexample :
    (getSuggestionStart {} ctxHell).1.cache = [] ∧
    (getSuggestionStart {} ctxHell).2 = GetSuggestionOutcome.launched 0 ∧
    (getSuggestionStart (getSuggestionStart {} ctxHell).1 ctxHell).2 =
      GetSuggestionOutcome.launched 1 ∧
    (getSuggestionStart (getSuggestionStart {} ctxHell).1 ctxHell).1.serviceCalls = 2 ∧
    ¬ (getSuggestionStart (getSuggestionStart {} ctxHell).1 ctxHell).1.serviceCalls = 1 := by
  decide

/-- Claim C1 as amended: getSuggestion stores no in-flight handle, so a
fingerprint-identical request issued while the first is still in flight
misses the cache, launches its own service call and aborts the first (two
service calls, not one); deduplication happens only once the first request
has settled successfully, after which an identical request is answered
from the cache with no further service call.  The cache layer itself does
implement in-flight handles as the spec describes setInFlight (pending
handle stored, replaced by the settled value on success, removed on
failure), but getSuggestion never calls setPromise. -/
theorem claim_C1_amended (s : LlmState) (ctx : SuggestionContext) (sug : String)
    (r : SuggestionResponse) (maxSize : Nat) (m : CacheMap) (k : SuggestionContext)
    (pid : Nat)
    (hmiss : SuggestionCache.get s.cache ctx = none)
    (hlong : ¬ (jsTrim ctx.textBefore).length < 3)
    (hctl : s.currentAbortController = none)
    (hnab : s.nextId ∉ s.aborted)
    (hlen : s.cache.length < llmCacheMaxSize)
    (hm : m.length < maxSize) :
    (getSuggestionStart s ctx).2 = GetSuggestionOutcome.launched s.nextId ∧
    (getSuggestionStart s ctx).1.cache = s.cache ∧
    (getSuggestionStart s ctx).1.serviceCalls = s.serviceCalls + 1 ∧
    (getSuggestionStart (getSuggestionStart s ctx).1 ctx).2 =
      GetSuggestionOutcome.launched (s.nextId + 1) ∧
    (getSuggestionStart (getSuggestionStart s ctx).1 ctx).1.serviceCalls = s.serviceCalls + 2 ∧
    s.nextId ∈ (getSuggestionStart (getSuggestionStart s ctx).1 ctx).1.aborted ∧
    getSuggestionStart
        (getSuggestionSettle (getSuggestionStart s ctx).1 ctx s.nextId (ServiceOutcome.ok sug)).1 ctx =
      ((getSuggestionSettle (getSuggestionStart s ctx).1 ctx s.nextId (ServiceOutcome.ok sug)).1,
       GetSuggestionOutcome.result { suggestion := sug }) ∧
    SuggestionCache.get (SuggestionCache.setPromise maxSize m k pid) k = some (Sum.inr pid) ∧
    SuggestionCache.get
        (SuggestionCache.promiseResolved (SuggestionCache.setPromise maxSize m k pid) k r) k =
      some (Sum.inl r) ∧
    mapGet (SuggestionCache.promiseRejected m k) k = none := by
  have heq1 : getSuggestionStart s ctx =
      ({ s with
          currentAbortController := some s.nextId
          nextId := s.nextId + 1
          serviceCalls := s.serviceCalls + 1 },
       GetSuggestionOutcome.launched s.nextId) := by
    simp only [getSuggestionStart, hmiss]
    rw [if_neg hlong]
    simp only [hctl]
  have heq2 : getSuggestionStart (getSuggestionStart s ctx).1 ctx =
      ({ s with
          currentAbortController := some (s.nextId + 1)
          nextId := s.nextId + 2
          serviceCalls := s.serviceCalls + 2
          aborted := s.aborted ++ [s.nextId] },
       GetSuggestionOutcome.launched (s.nextId + 1)) := by
    rw [heq1]
    simp only [getSuggestionStart, hmiss]
    rw [if_neg hlong]
  have heq3 : getSuggestionSettle (getSuggestionStart s ctx).1 ctx s.nextId (ServiceOutcome.ok sug) =
      ({ s with
          currentAbortController := none
          nextId := s.nextId + 1
          serviceCalls := s.serviceCalls + 1
          cache := SuggestionCache.set llmCacheMaxSize s.cache ctx { suggestion := sug } },
       ({ suggestion := sug } : SuggestionResponse)) := by
    rw [heq1]
    simp only [getSuggestionSettle, fetchSuggestionSettle]
    rw [if_neg hnab]
    simp
  have hmapR : mapGet (SuggestionCache.setPromise maxSize m k pid) k =
      some ({ promise := some pid } : CacheEntry) := by
    unfold SuggestionCache.setPromise SuggestionCache.cleanup
    rw [if_pos (le_trans (mapSet_length_le m k _) hm)]
    exact mapGet_mapSet_self m k _
  refine ⟨by rw [heq1], by rw [heq1], by rw [heq1], by rw [heq2], by rw [heq2],
    by rw [heq2]; simp, ?_, get_setPromise_self maxSize m k pid hm,
    get_promiseResolved_self _ k r _ hmapR, mapGet_mapDelete_self m k⟩
  rw [heq3]
  have hget : SuggestionCache.get
      (SuggestionCache.set llmCacheMaxSize s.cache ctx { suggestion := sug }) ctx =
      some (Sum.inl ({ suggestion := sug } : SuggestionResponse)) :=
    get_set_self _ _ _ _ hlen
  simp only [getSuggestionStart, hget]

/-- Witness for the amended C1 on the concrete "hell" request from the
initial module state. -/
theorem claim_C1_amended_witness :
    (getSuggestionStart {} ctxHell).2 = GetSuggestionOutcome.launched 0 ∧
    (getSuggestionStart (getSuggestionStart {} ctxHell).1 ctxHell).1.serviceCalls = 0 + 2 ∧
    getSuggestionStart
        (getSuggestionSettle (getSuggestionStart {} ctxHell).1 ctxHell 0
          (ServiceOutcome.ok respA.suggestion)).1 ctxHell =
      ((getSuggestionSettle (getSuggestionStart {} ctxHell).1 ctxHell 0
          (ServiceOutcome.ok respA.suggestion)).1,
       GetSuggestionOutcome.result { suggestion := respA.suggestion }) := by
  have h := claim_C1_amended {} ctxHell respA.suggestion respA 2 [] ctxA 7
    (by decide) (by decide) (by decide) (by decide) (by decide) (by decide)
  exact ⟨h.1, h.2.2.2.2.1, h.2.2.2.2.2.2.1⟩

theorem aborted_mono_getSuggestionStart (ls : LlmState) (ctx : SuggestionContext) (a : Nat)
    (h : a ∈ ls.aborted) : a ∈ (getSuggestionStart ls ctx).1.aborted := by
  unfold getSuggestionStart
  split
  · exact h
  · exact h
  · split
    · exact h
    · rcases hc : ls.currentAbortController with _ | x <;>
        simp [hc, List.mem_append, h]

/-- Claim C2: issuing a new tracker fetch aborts the outstanding request's
controller; a request whose controller was aborted settles as cancelled,
caches nothing and issues no further service call; and a cancelled
response leaves every engine UI field (suggestion text, visibility,
loading, error) untouched. -/
theorem claim_C2_cancellation (s : SysState) (t : Nat) (ctx : SuggestionContext) (a : Nat)
    (ls : LlmState) (ctx2 : SuggestionContext) (id : Nat) (outcome : ServiceOutcome)
    (e : EngineState) (r : SuggestionResponse)
    (hout : s.llm.currentAbortController = some a)
    (hid : id ∈ ls.aborted)
    (hr : r.cancelled = true) :
    a ∈ (fetchSuggestionStart s t ctx).llm.aborted ∧
    (getSuggestionSettle ls ctx2 id outcome).1.cache = ls.cache ∧
    (getSuggestionSettle ls ctx2 id outcome).1.serviceCalls = ls.serviceCalls ∧
    (getSuggestionSettle ls ctx2 id outcome).2.cancelled = true ∧
    applySuggestionResponse e r = e := by
  have hsettle : (getSuggestionSettle ls ctx2 id outcome).1.cache = ls.cache ∧
      (getSuggestionSettle ls ctx2 id outcome).1.serviceCalls = ls.serviceCalls ∧
      (getSuggestionSettle ls ctx2 id outcome).2.cancelled = true := by
    unfold getSuggestionSettle fetchSuggestionSettle
    rw [if_pos hid]
    split <;> simp
  refine ⟨?_, hsettle.1, hsettle.2.1, hsettle.2.2, ?_⟩
  · unfold fetchSuggestionStart
    apply aborted_mono_getSuggestionStart
    unfold cancelCurrentSuggestionRequest
    rw [hout]
    simp
  · unfold applySuggestionResponse
    rw [hr]
    simp

/-- Witness for C2: controller 5 outstanding, a new fetch aborts it, its
settle is cancelled, and the cancelled response changes nothing. -/
theorem claim_C2_cancellation_witness :
    5 ∈ (fetchSuggestionStart { llm := { currentAbortController := some 5 } } 0 ctxHell).llm.aborted ∧
    (getSuggestionSettle { aborted := [5] } ctxHell 5 (ServiceOutcome.ok respA.suggestion)).1.cache =
      ({ aborted := [5] } : LlmState).cache ∧
    (getSuggestionSettle { aborted := [5] } ctxHell 5 (ServiceOutcome.ok respA.suggestion)).1.serviceCalls =
      ({ aborted := [5] } : LlmState).serviceCalls ∧
    (getSuggestionSettle { aborted := [5] } ctxHell 5 (ServiceOutcome.ok respA.suggestion)).2.cancelled = true ∧
    applySuggestionResponse {} { suggestion := respA.suggestion, cancelled := true } = {} :=
  claim_C2_cancellation { llm := { currentAbortController := some 5 } } 0 ctxHell 5
    { aborted := [5] } ctxHell 5 (ServiceOutcome.ok respA.suggestion) {}
    { suggestion := respA.suggestion, cancelled := true }
    (by decide) (by decide) (by decide)

/-- Counterexample to claim C5: with element 0 tracked and a context read
that throws, the 200 ms retry that fires while document.activeElement is a
different element does nothing at all: the tracked element, adapter and
context are NOT cleared as the claim requires.  Moreover a retry that
fires while the element is still active and the read still throws
schedules a further retry, so the read is not retried exactly once. -/
theorem claim_C5_counterexample :
    updateCursor trackedSys envThrow 0 = (trackedSys, true) ∧
    updateCursorRetryFire trackedSys (some 1) envThrow 200 = (trackedSys, false) ∧
    (updateCursorRetryFire trackedSys (some 1) envThrow 200).1.engine.focusedElement = some 0 ∧
    ¬ ((updateCursorRetryFire trackedSys (some 1) envThrow 200).1.engine.focusedElement = none ∧
       (updateCursorRetryFire trackedSys (some 1) envThrow 200).1.engine.currentAdapter = none ∧
       (updateCursorRetryFire trackedSys (some 1) envThrow 200).1.engine.cursorData = none) ∧
    (updateCursorRetryFire trackedSys (some 0) envThrow 200).2 = true := by
  decide

/-- Claim C5 as amended: a failed context read leaves the tracker state
unchanged and schedules one retry after a short delay; when the retry
fires it re-runs the read only if the element is still tracked and still
document.activeElement; otherwise the retry is a no-op and the surface
stays tracked (dropping the surface is done elsewhere: by the focus-out
handler or by the detached-element check of the next read). -/
theorem claim_C5_amended (s : SysState) (env : DomReadEnv) (now now2 : Nat) (act : Option Nat)
    (htrk : ¬ s.engine.focusedElement = none) (hadp : ¬ s.engine.currentAdapter = none)
    (hdoc : env.inDocument = true) (hvis : env.hasOffsetParent = true)
    (hfail : env.read = none) (hact : ¬ act = s.engine.focusedElement) :
    updateCursor s env now = (s, true) ∧
    updateCursorRetryFire s act env now2 = (s, false) ∧
    (∀ act2, act2 = s.engine.focusedElement →
      updateCursorRetryFire s act2 env now2 = updateCursor s env now2) := by
  have hcond : ¬ (s.engine.focusedElement = none ∨ s.engine.currentAdapter = none ∨
      env.inDocument = false ∨ env.hasOffsetParent = false) := by
    simp [htrk, hadp, hdoc, hvis]
  refine ⟨?_, ?_, ?_⟩
  · unfold updateCursor
    rw [if_neg hcond]
    simp only [hfail]
  · unfold updateCursorRetryFire
    rw [if_neg]
    intro hand
    exact hact hand.2
  · intro act2 h2
    unfold updateCursorRetryFire
    rw [if_pos ⟨htrk, h2⟩]

/-- Witness for the amended C5 on the concrete tracked state. -/
theorem claim_C5_amended_witness :
    updateCursor trackedSys envThrow 0 = (trackedSys, true) ∧
    updateCursorRetryFire trackedSys (some 1) envThrow 200 = (trackedSys, false) ∧
    updateCursorRetryFire trackedSys (some 0) envThrow 200 = updateCursor trackedSys envThrow 200 := by
  have h := claim_C5_amended trackedSys envThrow 0 200 (some 1)
    (by decide) (by decide) (by decide) (by decide) (by decide) (by decide)
  exact ⟨h.1, h.2.1, h.2.2 (some 0) (by decide)⟩

theorem getSuggestionStart_launched_eq (ls : LlmState) (ctx : SuggestionContext)
    (hmiss : SuggestionCache.get ls.cache ctx = none)
    (hlong : ¬ (jsTrim ctx.textBefore).length < 3)
    (hctl : ls.currentAbortController = none) :
    getSuggestionStart ls ctx =
      ({ ls with
          currentAbortController := some ls.nextId
          nextId := ls.nextId + 1
          serviceCalls := ls.serviceCalls + 1 },
       GetSuggestionOutcome.launched ls.nextId) := by
  simp only [getSuggestionStart, hmiss]
  rw [if_neg hlong]
  simp only [hctl]

/-- Claim C6: a suggestion request is issued only when a debounce timer
armed TYPE_DELAY_MS (300 ms) after a qualifying event fires; every new
event clears the pending timer and arms a fresh one, so two events within
the window yield one service call (the superseded first timer is a no-op);
and a timer firing after document focus moved off the tracked surface
issues no request and touches no service state at all.  The hypothesis
t2 < t1 + 300 makes this event order (second event before the first
timer's expiry) the temporally valid one. -/
theorem claim_C6_debounce (cd0 cd1 cd2 : CursorData) (t1 t2 : Nat)
    (domain : String) (s : SysState)
    (hs : s = { engine := { focusedElement := some 0
                            currentAdapter := some 0
                            cursorData := some cd0 } })
    (horder : t2 < t1 + TYPE_DELAY_MS)
    (htrim : ¬ (jsTrim cd2.textBefore).length < 3) :
    fireSuggestionTimer
        (updateCursor (updateCursor s { read := some cd1 } t1).1 { read := some cd2 } t2).1
        0 (some 0) domain =
      (updateCursor (updateCursor s { read := some cd1 } t1).1 { read := some cd2 } t2).1 ∧
    (fireSuggestionTimer
        (fireSuggestionTimer
          (updateCursor (updateCursor s { read := some cd1 } t1).1 { read := some cd2 } t2).1
          0 (some 0) domain)
        1 (some 0) domain).llm.serviceCalls = 1 ∧
    (fireSuggestionTimer
        (fireSuggestionTimer
          (updateCursor (updateCursor s { read := some cd1 } t1).1 { read := some cd2 } t2).1
          0 (some 0) domain)
        1 (some 0) domain).engine.fetchesIssued =
      [(t2 + TYPE_DELAY_MS, withDomain (cdToCtx cd2) domain)] ∧
    (∀ s2 tid2 act2 dom2, ¬ (s2.engine.focusedElement ≠ none ∧ act2 = s2.engine.focusedElement) →
      (fireSuggestionTimer s2 tid2 act2 dom2).engine.fetchesIssued = s2.engine.fetchesIssued ∧
      (fireSuggestionTimer s2 tid2 act2 dom2).llm = s2.llm) ∧
    (∀ s2 env2 now2 tm, tm ∈ (updateCursor s2 env2 now2).1.engine.timers →
      tm ∈ s2.engine.timers ∨ tm.fireAt = now2 + TYPE_DELAY_MS) := by
  subst hs
  have hstale : ∀ s2 tid2 act2 dom2,
      ¬ (s2.engine.focusedElement ≠ none ∧ act2 = s2.engine.focusedElement) →
      (fireSuggestionTimer s2 tid2 act2 dom2).engine.fetchesIssued = s2.engine.fetchesIssued ∧
      (fireSuggestionTimer s2 tid2 act2 dom2).llm = s2.llm := by
    intro s2 tid2 act2 dom2 hng
    unfold fireSuggestionTimer
    split
    · exact ⟨rfl, rfl⟩
    · dsimp only
      split
      · rename_i hpos
        exact absurd hpos hng
      · exact ⟨rfl, rfl⟩
  have hquiet : ∀ s2 env2 now2 tm, tm ∈ (updateCursor s2 env2 now2).1.engine.timers →
      tm ∈ s2.engine.timers ∨ tm.fireAt = now2 + TYPE_DELAY_MS := by
    intro s2 env2 now2 tm hmem
    unfold updateCursor at hmem
    split at hmem
    · left
      simp only [resetSys, clearUISys] at hmem
      split at hmem
      · exact List.mem_of_mem_filter hmem
      · exact hmem
    · cases hr : env2.read with
      | none =>
        rw [hr] at hmem
        exact Or.inl hmem
      | some cd =>
        rw [hr] at hmem
        dsimp only at hmem
        split at hmem
        · left
          split at hmem
          · exact List.mem_of_mem_filter hmem
          · exact hmem
        · rcases List.mem_append.mp hmem with h1 | h1
          · left
            split at h1
            · exact List.mem_of_mem_filter h1
            · exact h1
          · right
            simp at h1
            rw [h1]
  refine ⟨rfl, ?_, rfl, hstale, hquiet⟩
  show (getSuggestionStart {} (withDomain (cdToCtx cd2) domain)).1.serviceCalls = 1
  rw [getSuggestionStart_launched_eq {} (withDomain (cdToCtx cd2) domain) rfl htrim rfl]

/-- Witness for C6: two updates at t = 0 and t = 100 (within the 300 ms
window) followed by both timers firing yield exactly one service call,
issued at t = 400 with the second context; a stale fire with focus
elsewhere issues nothing. -/
theorem claim_C6_debounce_witness :
    (fireSuggestionTimer
        (fireSuggestionTimer
          (updateCursor (updateCursor trackedSys { read := some cdSample } 0).1
            { read := some cdSample2 } 100).1
          0 (some 0) ctxHell.pageContentBefore)
        1 (some 0) ctxHell.pageContentBefore).llm.serviceCalls = 1 ∧
    (fireSuggestionTimer
        (fireSuggestionTimer
          (updateCursor (updateCursor trackedSys { read := some cdSample } 0).1
            { read := some cdSample2 } 100).1
          0 (some 0) ctxHell.pageContentBefore)
        1 (some 0) ctxHell.pageContentBefore).engine.fetchesIssued =
      [(100 + TYPE_DELAY_MS, withDomain (cdToCtx cdSample2) ctxHell.pageContentBefore)] ∧
    (fireSuggestionTimer trackedSys 0 (some 1) ctxHell.pageContentBefore).engine.fetchesIssued =
      trackedSys.engine.fetchesIssued := by
  have h := claim_C6_debounce cdSample cdSample cdSample2 0 100 ctxHell.pageContentBefore
    trackedSys rfl (by decide) (by decide)
  exact ⟨h.2.1, h.2.2.1,
    (h.2.2.2.1 trackedSys 0 (some 1) ctxHell.pageContentBefore (by decide)).1⟩

theorem register_mem (l : List AdapterSpec) (a x : AdapterSpec) :
    x ∈ EditorAdapterRegistry.register l a ↔ x ∈ l ∨ x = a := by
  induction l with
  | nil => simp [EditorAdapterRegistry.register]
  | cons b t ih =>
    unfold EditorAdapterRegistry.register
    split
    · simp [List.mem_cons]
      tauto
    · simp [List.mem_cons, ih]
      tauto

theorem register_sorted (l : List AdapterSpec) (a : AdapterSpec)
    (h : l.Sorted (fun x y => y.priority ≤ x.priority)) :
    (EditorAdapterRegistry.register l a).Sorted (fun x y => y.priority ≤ x.priority) := by
  induction l with
  | nil => simp [EditorAdapterRegistry.register]
  | cons b t ih =>
    rcases List.sorted_cons.mp h with ⟨hb, ht⟩
    unfold EditorAdapterRegistry.register
    split
    · rename_i hlt
      refine List.sorted_cons.mpr ⟨?_, h⟩
      intro y hy
      rcases List.mem_cons.mp hy with rfl | hyt
      · exact le_of_lt hlt
      · exact le_trans (hb y hyt) (le_of_lt hlt)
    · rename_i hge
      refine List.sorted_cons.mpr ⟨?_, ih ht⟩
      intro y hy
      rcases (register_mem t a y).mp hy with hyt | rfl
      · exact hb y hyt
      · exact le_of_not_lt hge

theorem register_filter_eq (l : List AdapterSpec) (a : AdapterSpec) (p : Int)
    (h : l.Sorted (fun x y => y.priority ≤ x.priority)) :
    (EditorAdapterRegistry.register l a).filter (fun x => x.priority == p) =
      if a.priority == p then l.filter (fun x => x.priority == p) ++ [a]
      else l.filter (fun x => x.priority == p) := by
  induction l with
  | nil =>
    by_cases hat : (a.priority == p) = true <;>
      simp [EditorAdapterRegistry.register, List.filter_cons, hat]
  | cons b t ih =>
    rcases List.sorted_cons.mp h with ⟨hb, ht⟩
    unfold EditorAdapterRegistry.register
    split
    · rename_i hlt
      by_cases hap : a.priority = p
      · have hat : (a.priority == p) = true := by simpa using hap
        have hbf : (b.priority == p) = false := by
          simp only [beq_eq_false_iff_ne]
          omega
        have hft : List.filter (fun x => x.priority == p) t = [] := by
          rw [List.filter_eq_nil_iff]
          intro x hx
          have := hb x hx
          simp only [beq_iff_eq, decide_eq_true_eq]
          omega
        simp [List.filter_cons, hat, hbf, hft]
      · have haf : (a.priority == p) = false := by simpa using hap
        simp [List.filter_cons, haf]
    · rename_i hge
      simp only [List.filter_cons, ih ht]
      by_cases hat : (a.priority == p) = true <;>
        by_cases hbt : (b.priority == p) = true <;>
          simp [hat, hbt]

theorem registerAll_core (regs : List AdapterSpec) (acc : List AdapterSpec)
    (h : acc.Sorted (fun x y => y.priority ≤ x.priority)) :
    (regs.foldl EditorAdapterRegistry.register acc).Sorted (fun x y => y.priority ≤ x.priority) ∧
    ∀ p : Int, (regs.foldl EditorAdapterRegistry.register acc).filter (fun x => x.priority == p) =
      acc.filter (fun x => x.priority == p) ++ regs.filter (fun x => x.priority == p) := by
  induction regs generalizing acc with
  | nil => simp [h]
  | cons r rest ih =>
    have hsorted := register_sorted acc r h
    rcases ih (EditorAdapterRegistry.register acc r) hsorted with ⟨hs, hf⟩
    refine ⟨by simpa using hs, ?_⟩
    intro p
    have := hf p
    simp only [List.foldl_cons] at this ⊢
    rw [this, register_filter_eq acc r p h]
    by_cases hrp : r.priority = p
    · simp [List.filter, hrp]
    · have hfr : (r.priority == p) = false := by simpa using hrp
      simp [List.filter, hfr]

theorem findAdapter_first (l : List AdapterSpec) (el : Nat) (a : AdapterSpec)
    (hs : l.Sorted (fun x y => y.priority ≤ x.priority))
    (h : EditorAdapterRegistry.findAdapter l el = some a) :
    a.canHandle el = true ∧ ∀ b ∈ l, b.canHandle el = true → b.priority ≤ a.priority := by
  induction l with
  | nil => simp [EditorAdapterRegistry.findAdapter] at h
  | cons c t ih =>
    rcases List.sorted_cons.mp hs with ⟨hc, ht⟩
    unfold EditorAdapterRegistry.findAdapter at h
    rw [List.find?_cons] at h
    by_cases hcc : c.canHandle el = true
    · rw [hcc] at h
      cases h
      refine ⟨hcc, ?_⟩
      intro b hb hbel
      rcases List.mem_cons.mp hb with rfl | hbt
      · exact le_refl _
      · exact hc b hbt
    · have hcf : c.canHandle el = false := by simpa using hcc
      rw [hcf] at h
      rcases ih ht h with ⟨h1, h2⟩
      refine ⟨h1, ?_⟩
      intro b hb hbel
      rcases List.mem_cons.mp hb with rfl | hbt
      · exact absurd hbel hcc
      · exact h2 b hbt hbel

/-- Claim C8: the registry list built by register calls is sorted in
descending priority; equal-priority adapters keep their registration order
(the filter at any priority equals the registration-order filter);
findAdapter returns the first adapter in that order whose canHandle is
true, which therefore has maximal priority among the matching ones, and
none when no adapter matches; in particular a priority-15 and a priority-0
adapter both matching the same element yield the priority-15 one for
either registration order. -/
theorem claim_C8_registry (regs : List AdapterSpec) (el : Nat) (a : AdapterSpec) :
    (EditorAdapterRegistry.registerAll regs).Sorted (fun x y => y.priority ≤ x.priority) ∧
    (∀ p : Int, (EditorAdapterRegistry.registerAll regs).filter (fun x => x.priority == p) =
      regs.filter (fun x => x.priority == p)) ∧
    (EditorAdapterRegistry.findAdapter (EditorAdapterRegistry.registerAll regs) el = some a →
      a.canHandle el = true ∧
      ∀ b ∈ EditorAdapterRegistry.registerAll regs, b.canHandle el = true →
        b.priority ≤ a.priority) ∧
    ((∀ b ∈ EditorAdapterRegistry.registerAll regs, b.canHandle el = false) →
      EditorAdapterRegistry.findAdapter (EditorAdapterRegistry.registerAll regs) el = none) ∧
    (EditorAdapterRegistry.findAdapter
        (EditorAdapterRegistry.registerAll [loAdapter, hiAdapter]) el).map AdapterSpec.id =
      some hiAdapter.id ∧
    (EditorAdapterRegistry.findAdapter
        (EditorAdapterRegistry.registerAll [hiAdapter, loAdapter]) el).map AdapterSpec.id =
      some hiAdapter.id := by
  have hcore := registerAll_core regs [] (by simp)
  refine ⟨hcore.1, ?_, ?_, ?_, rfl, rfl⟩
  · intro p
    simpa using hcore.2 p
  · intro h
    exact findAdapter_first _ el a hcore.1 h
  · intro h
    unfold EditorAdapterRegistry.findAdapter
    rw [List.find?_eq_none]
    intro x hx
    simp [h x hx]

/-- Witness for C8 on the concrete two-adapter scenario. -/
theorem claim_C8_registry_witness :
    hiAdapter.canHandle 0 = true ∧
    (∀ b ∈ EditorAdapterRegistry.registerAll [loAdapter, hiAdapter],
      b.canHandle 0 = true → b.priority ≤ hiAdapter.priority) ∧
    (EditorAdapterRegistry.findAdapter
        (EditorAdapterRegistry.registerAll [loAdapter, hiAdapter]) 0).map AdapterSpec.id =
      some hiAdapter.id := by
  have h := claim_C8_registry [loAdapter, hiAdapter] 0 hiAdapter
  have hf := h.2.2.1 (by rfl)
  exact ⟨hf.1, hf.2, h.2.2.2.2.1⟩

theorem slice_concat (v : List Char) (s e : Nat) (hse : s ≤ e) (hev : e ≤ v.length) :
    v.take s ++ ((v.take e).drop s ++ v.drop e) = v ∧ ((v.take e).drop s).length = e - s := by
  constructor
  · have h1 : v.take s = (v.take e).take s := by
      rw [List.take_take, min_eq_left hse]
    rw [h1, ← List.append_assoc, List.take_append_drop, List.take_append_drop]
  · rw [List.length_drop, List.length_take]
    omega

/-- Counterexample to claim C3: the Gmail adapter's no-selection fallback
on a compose region whose text is "abc" returns empty textBefore,
textSelected and textAfter around fullText "abc", violating the
concatenation invariant. -/
theorem claim_C3_counterexample :
    ¬ ((GmailAdapter.getEditorContext gmailAbc ctxHell.pageContentBefore).textBefore ++
        (GmailAdapter.getEditorContext gmailAbc ctxHell.pageContentBefore).textSelected ++
        (GmailAdapter.getEditorContext gmailAbc ctxHell.pageContentBefore).textAfter =
        (GmailAdapter.getEditorContext gmailAbc ctxHell.pageContentBefore).fullText) := by
  decide

/-- Claim C3 as amended: the Surface Context invariant holds for the
HtmlInput adapter whenever the native selection is ordered and in range
(the DOM guarantees), for the Gmail adapter whenever a native selection
exists (with ordered, in-range endpoints), and for the Overleaf adapter in
both its branches; in the Gmail no-selection fallback the three text parts
concatenate to the empty string, which equals fullText exactly when the
region's text is empty. -/
theorem claim_C3_amended (inp : InputState) (page : String) (d : GmailDom)
    (ps pe : GmailPos) (doc : CMDoc) (ra rb : CMAnchor)
    (hse : inp.selectionStart.getD 0 ≤ inp.selectionEnd.getD 0)
    (hel : inp.selectionEnd.getD 0 ≤ inp.value.length)
    (hgs : d.selection = some (ps, pe))
    (hg1 : gmailOffset d.nodes ps ≤ gmailOffset d.nodes pe)
    (hg2 : gmailOffset d.nodes pe ≤ d.nodes.flatten.length)
    (ho1 : (OverleafAdapter.getSelectionOffsets doc ra rb).1 ≤
      (OverleafAdapter.getSelectionOffsets doc ra rb).2)
    (ho2 : (OverleafAdapter.getSelectionOffsets doc ra rb).2 ≤
      (OverleafAdapter.getFullTextWithNewlines doc).length) :
    ctxInvariant (HtmlInputAdapter.getEditorContext inp page) ∧
    ctxInvariant (GmailAdapter.getEditorContext d page) ∧
    ctxInvariant (OverleafAdapter.getEditorContext doc (some (ra, rb)) page) ∧
    ctxInvariant (OverleafAdapter.getEditorContext doc none page) ∧
    ((GmailAdapter.getEditorContext { nodes := d.nodes, selection := none } page).textBefore ++
        (GmailAdapter.getEditorContext { nodes := d.nodes, selection := none } page).textSelected ++
        (GmailAdapter.getEditorContext { nodes := d.nodes, selection := none } page).textAfter =
      (GmailAdapter.getEditorContext { nodes := d.nodes, selection := none } page).fullText ↔
      d.nodes.flatten = []) := by
  refine ⟨?_, ?_, ?_, ?_, ?_⟩
  · unfold HtmlInputAdapter.getEditorContext ctxInvariant
    dsimp only
    by_cases hne : inp.selectionStart.getD 0 = inp.selectionEnd.getD 0
    · have hnot : ¬ (inp.selectionStart.getD 0 ≠ inp.selectionEnd.getD 0) := fun hh => hh hne
      rw [if_neg hnot, if_neg hnot]
      refine ⟨?_, hse, hel⟩
      simp [List.take_append_drop]
    · rw [if_pos hne, if_pos hne]
      rcases slice_concat inp.value _ _ hse hel with ⟨h1, _⟩
      exact ⟨by simpa [List.append_assoc] using h1, hse, hel⟩
  · unfold GmailAdapter.getEditorContext ctxInvariant
    rw [hgs]
    dsimp only
    rcases slice_concat d.nodes.flatten _ _ hg1 hg2 with ⟨h1, h2⟩
    refine ⟨by simpa [List.append_assoc] using h1, ?_, ?_⟩ <;>
      simp only [List.length_append, List.length_take, h2] <;> omega
  · unfold OverleafAdapter.getEditorContext ctxInvariant
    dsimp only
    rcases slice_concat (OverleafAdapter.getFullTextWithNewlines doc) _ _ ho1 ho2 with ⟨h1, _⟩
    exact ⟨by simpa [List.append_assoc] using h1, ho1, ho2⟩
  · unfold OverleafAdapter.getEditorContext ctxInvariant
    simp
  · unfold GmailAdapter.getEditorContext
    simp [eq_comm]

/-- Witness for the amended C3 at concrete surfaces: an input with caret
at 0, a Gmail region "abc" selecting "b", and the Overleaf document with
lines "ab", "", "c" with a native range for offsets (1, 4). -/
theorem claim_C3_amended_witness :
    ctxInvariant (HtmlInputAdapter.getEditorContext favInput ctxHell.pageContentBefore) ∧
    ctxInvariant (GmailAdapter.getEditorContext gmailSel ctxHell.pageContentBefore) ∧
    ctxInvariant (OverleafAdapter.getEditorContext cmDocW
      (some (CMAnchor.text 0 0 1, CMAnchor.text 2 0 0)) ctxHell.pageContentBefore) := by
  have h := claim_C3_amended favInput ctxHell.pageContentBefore gmailSel
    { node := 0, off := 1 } { node := 0, off := 2 } cmDocW
    (CMAnchor.text 0 0 1) (CMAnchor.text 2 0 0)
    (by decide) (by decide) (by decide) (by decide) (by decide) (by decide) (by decide)
  exact ⟨h.1, h.2.1, h.2.2.1⟩

/-- Claim C9: accepting a suggestion inserts via setCursorAndInsert at the
offsets of the cursor data captured at fetch time — the element's current
selection is irrelevant (second conjunct) — replacing that captured range
with the suggestion and collapsing the caret immediately after it. -/
theorem claim_C9_accept_uses_captured_offsets (cd : CursorData) (inp : InputState)
    (sug : List Char) (s2 e2 : Option Nat)
    (hse : cd.selectionStart ≤ cd.selectionEnd)
    (hel : cd.selectionEnd ≤ inp.value.length) :
    onAcceptSuggestion cd inp sug =
      { value := inp.value.take cd.selectionStart ++ sug ++ inp.value.drop cd.selectionEnd
        selectionStart := some (cd.selectionStart + sug.length)
        selectionEnd := some (cd.selectionStart + sug.length) } ∧
    onAcceptSuggestion cd { inp with selectionStart := s2, selectionEnd := e2 } sug =
      onAcceptSuggestion cd inp sug := by
  constructor
  · unfold onAcceptSuggestion HtmlInputAdapter.setCursorAndInsert
      HtmlInputAdapter.setSelectionRange HtmlInputAdapter.insertText
    dsimp only
    rw [min_eq_left (le_trans hse hel), min_eq_left hel]
  · rfl

/-- Witness for C9: the spec scenario — context captured with caret at 11
in "My favorite", current selection moved to 0, suggestion " color is
blue" — yields "My favorite color is blue" with the caret at 25,
immediately after "blue". -/
theorem claim_C9_accept_uses_captured_offsets_witness :
    cdFavorite.selectionStart ≤ cdFavorite.selectionEnd ∧
    cdFavorite.selectionEnd ≤ favInput.value.length ∧
    onAcceptSuggestion cdFavorite favInput ((" color is blue").toList) =
      { value := ("My favorite color is blue").toList
        selectionStart := some 25
        selectionEnd := some 25 } := by
  have h := claim_C9_accept_uses_captured_offsets cdFavorite favInput
    ((" color is blue").toList) (some 5) (some 7) (by decide) (by decide)
  exact ⟨by decide, by decide, h.1.trans (by decide)⟩

theorem nodeStart_zero (doc : CMDoc) (li : Nat) : nodeStart doc li 0 = docStart doc li := by
  simp [nodeStart]

theorem nodeStart_succ (doc : CMDoc) (li nj : Nat) (h : nj < (doc.getD li []).length) :
    nodeStart doc li (nj + 1) =
      nodeStart doc li nj + ((doc.getD li []).getD nj []).length := by
  unfold nodeStart
  have hm : nj < ((doc.getD li []).map List.length).length := by simpa using h
  rw [List.map_take, List.map_take, List.sum_take_succ _ nj hm, List.getElem_map]
  have hg : (doc.getD li []).getD nj [] = (doc.getD li [])[nj] := by
    rw [List.getD_eq_getElem?_getD, List.getElem?_eq_getElem h]
    rfl
  rw [hg]
  omega

theorem nodeStart_full (doc : CMDoc) (li : Nat) :
    nodeStart doc li (doc.getD li []).length = docStart doc li + lineLen (doc.getD li []) := by
  unfold nodeStart lineLen
  rw [List.take_length]

theorem docStart_succ (doc : CMDoc) (li : Nat) (h : li < doc.length) :
    docStart doc (li + 1) = docStart doc li + lineLen (doc.getD li []) + 1 := by
  unfold docStart
  have hm : li < (doc.map (fun l => lineLen l + 1)).length := by simpa using h
  rw [List.map_take, List.map_take, List.sum_take_succ _ li hm, List.getElem_map]
  have hg : doc.getD li [] = doc[li] := by
    rw [List.getD_eq_getElem?_getD, List.getElem?_eq_getElem h]
    rfl
  rw [hg]
  omega

theorem drop_cons_facts (L : List CMNode) (nj : Nat) (n : CMNode) (rest : List CMNode)
    (h : L.drop nj = n :: rest) :
    nj < L.length ∧ L.getD nj [] = n ∧ L.drop (nj + 1) = rest := by
  have hlen : nj < L.length := by
    by_contra hc
    rw [List.drop_eq_nil_of_le (le_of_not_lt hc)] at h
    exact absurd h (by simp)
  have hd := List.drop_eq_getElem_cons hlen
  rw [hd] at h
  have h1 := List.cons.inj h
  refine ⟨hlen, ?_, h1.2⟩
  rw [List.getD_eq_getElem?_getD, List.getElem?_eq_getElem hlen]
  simpa using h1.1

theorem drop_cons_facts_lines (L : List CMLine) (nj : Nat) (n : CMLine) (rest : List CMLine)
    (h : L.drop nj = n :: rest) :
    nj < L.length ∧ L.getD nj [] = n ∧ L.drop (nj + 1) = rest := by
  have hlen : nj < L.length := by
    by_contra hc
    rw [List.drop_eq_nil_of_le (le_of_not_lt hc)] at h
    exact absurd h (by simp)
  have hd := List.drop_eq_getElem_cons hlen
  rw [hd] at h
  have h1 := List.cons.inj h
  refine ⟨hlen, ?_, h1.2⟩
  rw [List.getD_eq_getElem?_getD, List.getElem?_eq_getElem hlen]
  simpa using h1.1

theorem setSelNodes_spec (doc : CMDoc) (startPos endPos li : Nat) :
    ∀ (nodes : List CMNode) (nj : Nat) (w : SetSelWalk),
    li < doc.length →
    (doc.getD li []).drop nj = nodes →
    w.offset = nodeStart doc li nj →
    (w.startNode = none → w.offset ≤ startPos) →
    (∀ a, w.startNode = some a → validAnchor doc a ∧ anchorOffset doc a = startPos) →
    (w.endNode = none → w.offset ≤ endPos) →
    (∀ a, w.endNode = some a → validAnchor doc a ∧ anchorOffset doc a = endPos) →
    (∀ a b, setSelNodes startPos endPos li nj nodes w = Except.error (a, b) →
      (validAnchor doc a ∧ anchorOffset doc a = startPos) ∧
      (validAnchor doc b ∧ anchorOffset doc b = endPos)) ∧
    (∀ w2, setSelNodes startPos endPos li nj nodes w = Except.ok w2 →
      w2.offset = nodeStart doc li (nj + nodes.length) ∧
      (w2.startNode = none → w.startNode = none ∧ w2.offset ≤ startPos ∧
        (nodes ≠ [] → w2.offset < startPos)) ∧
      (∀ a, w2.startNode = some a → validAnchor doc a ∧ anchorOffset doc a = startPos) ∧
      (w2.endNode = none → w.endNode = none ∧ w2.offset ≤ endPos ∧
        (nodes ≠ [] → w2.offset < endPos)) ∧
      (∀ a, w2.endNode = some a → validAnchor doc a ∧ anchorOffset doc a = endPos)) := by
  intro nodes
  induction nodes with
  | nil =>
    intro nj w hli hnodes hoff hsn hsv hen hev
    constructor
    · intro a b herr
      simp [setSelNodes] at herr
    · intro w2 hok
      simp only [setSelNodes] at hok
      cases hok
      refine ⟨by simpa using hoff, ?_, hsv, ?_, hev⟩
      · intro hn
        exact ⟨hn, hsn hn, by simp⟩
      · intro hn
        exact ⟨hn, hen hn, by simp⟩
  | cons n rest ih =>
    intro nj w hli hnodes hoff hsn hsv hen hev
    obtain ⟨hjl, hnth, hrest⟩ := drop_cons_facts _ _ _ _ hnodes
    have hstep : nodeStart doc li (nj + 1) = nodeStart doc li nj + n.length := by
      rw [nodeStart_succ doc li nj hjl, hnth]
    have hs1some : ∀ a,
        (if w.startNode = none ∧ w.offset ≤ startPos ∧ startPos ≤ w.offset + n.length then
          some (CMAnchor.text li nj (startPos - w.offset)) else w.startNode) = some a →
        validAnchor doc a ∧ anchorOffset doc a = startPos := by
      intro a ha
      split at ha
      · rename_i hc
        cases ha
        refine ⟨⟨hli, hjl, ?_⟩, ?_⟩
        · rw [hnth]
          omega
        · show nodeStart doc li nj + (startPos - w.offset) = startPos
          omega
      · exact hsv a ha
    have hs1none :
        (if w.startNode = none ∧ w.offset ≤ startPos ∧ startPos ≤ w.offset + n.length then
          some (CMAnchor.text li nj (startPos - w.offset)) else w.startNode) = none →
        w.startNode = none ∧ w.offset + n.length < startPos := by
      intro ha
      split at ha
      · exact absurd ha (by simp)
      · rename_i hc
        refine ⟨ha, ?_⟩
        have h1 := hsn ha
        rw [not_and, not_and] at hc
        have := hc ha h1
        omega
    have he1some : ∀ a,
        (if w.endNode = none ∧ w.offset ≤ endPos ∧ endPos ≤ w.offset + n.length then
          some (CMAnchor.text li nj (endPos - w.offset)) else w.endNode) = some a →
        validAnchor doc a ∧ anchorOffset doc a = endPos := by
      intro a ha
      split at ha
      · rename_i hc
        cases ha
        refine ⟨⟨hli, hjl, ?_⟩, ?_⟩
        · rw [hnth]
          omega
        · show nodeStart doc li nj + (endPos - w.offset) = endPos
          omega
      · exact hev a ha
    have he1none :
        (if w.endNode = none ∧ w.offset ≤ endPos ∧ endPos ≤ w.offset + n.length then
          some (CMAnchor.text li nj (endPos - w.offset)) else w.endNode) = none →
        w.endNode = none ∧ w.offset + n.length < endPos := by
      intro ha
      split at ha
      · exact absurd ha (by simp)
      · rename_i hc
        refine ⟨ha, ?_⟩
        have h1 := hen ha
        rw [not_and, not_and] at hc
        have := hc ha h1
        omega
    have ihall := ih (nj + 1)
      { offset := w.offset + n.length
        startNode := if w.startNode = none ∧ w.offset ≤ startPos ∧ startPos ≤ w.offset + n.length
          then some (CMAnchor.text li nj (startPos - w.offset)) else w.startNode
        endNode := if w.endNode = none ∧ w.offset ≤ endPos ∧ endPos ≤ w.offset + n.length
          then some (CMAnchor.text li nj (endPos - w.offset)) else w.endNode
        lastTextNode := some (li, nj, n.length) }
      hli hrest (by simpa [hoff] using hstep.symm)
      (fun h => le_of_lt (by simpa [hoff] using (hs1none h).2))
      hs1some
      (fun h => le_of_lt (by simpa [hoff] using (he1none h).2))
      he1some
    constructor
    · intro a b herr
      rw [setSelNodes] at herr
      split at herr
      · rename_i heqs heqe
        cases herr
        exact ⟨hs1some a heqs, he1some b heqe⟩
      · exact ihall.1 a b herr
    · intro w2 hok
      rw [setSelNodes] at hok
      split at hok
      · cases hok
      · rcases ihall.2 w2 hok with ⟨hoff2, hsn2, hsv2, hen2, hev2⟩
        refine ⟨?_, ?_, hsv2, ?_, hev2⟩
        · rw [hoff2]
          congr 1
          simp [Nat.add_comm, Nat.add_assoc, Nat.add_left_comm]
        · intro hn2
          rcases hsn2 hn2 with ⟨hs1n, hle, hlt⟩
          rcases hs1none hs1n with ⟨hwn, hstrict⟩
          refine ⟨hwn, hle, ?_⟩
          intro _
          cases rest with
          | nil =>
            rw [hoff2]
            simp only [List.length_nil, Nat.add_zero]
            omega
          | cons y ys => exact hlt (by simp)
        · intro hn2
          rcases hen2 hn2 with ⟨he1n, hle, hlt⟩
          rcases he1none he1n with ⟨hwn, hstrict⟩
          refine ⟨hwn, hle, ?_⟩
          intro _
          cases rest with
          | nil =>
            rw [hoff2]
            simp only [List.length_nil, Nat.add_zero]
            omega
          | cons y ys => exact hlt (by simp)

theorem setSelEmptyLine_spec (doc : CMDoc) (startPos endPos li : Nat) (w1 : SetSelWalk)
    (hli : li < doc.length)
    (hw1 : w1.offset = docStart doc li)
    (hsn : w1.startNode = none → w1.offset ≤ startPos)
    (hsv : ∀ a, w1.startNode = some a → validAnchor doc a ∧ anchorOffset doc a = startPos)
    (hen : w1.endNode = none → w1.offset ≤ endPos)
    (hev : ∀ a, w1.endNode = some a → validAnchor doc a ∧ anchorOffset doc a = endPos) :
    (∀ a b, setSelEmptyLine startPos endPos li w1.offset w1 = Except.error (a, b) →
      (validAnchor doc a ∧ anchorOffset doc a = startPos) ∧
      (validAnchor doc b ∧ anchorOffset doc b = endPos)) ∧
    (∀ w2, setSelEmptyLine startPos endPos li w1.offset w1 = Except.ok w2 →
      w2.offset = w1.offset ∧
      (w2.startNode = none → w2.offset < startPos) ∧
      (∀ a, w2.startNode = some a → validAnchor doc a ∧ anchorOffset doc a = startPos) ∧
      (w2.endNode = none → w2.offset < endPos) ∧
      (∀ a, w2.endNode = some a → validAnchor doc a ∧ anchorOffset doc a = endPos)) := by
  have hs1some : ∀ a,
      (if w1.startNode = none ∧ startPos = w1.offset then
        some (CMAnchor.lineElem li) else w1.startNode) = some a →
      validAnchor doc a ∧ anchorOffset doc a = startPos := by
    intro a ha
    split at ha
    · rename_i hc
      cases ha
      exact ⟨hli, by rw [anchorOffset, ← hw1, hc.2]⟩
    · exact hsv a ha
  have he1some : ∀ a,
      (if w1.endNode = none ∧ endPos = w1.offset then
        some (CMAnchor.lineElem li) else w1.endNode) = some a →
      validAnchor doc a ∧ anchorOffset doc a = endPos := by
    intro a ha
    split at ha
    · rename_i hc
      cases ha
      exact ⟨hli, by rw [anchorOffset, ← hw1, hc.2]⟩
    · exact hev a ha
  have hs1none :
      (if w1.startNode = none ∧ startPos = w1.offset then
        some (CMAnchor.lineElem li) else w1.startNode) = none →
      w1.offset < startPos := by
    intro ha
    split at ha
    · exact absurd ha (by simp)
    · rename_i hc
      rw [not_and] at hc
      have h1 := hsn ha
      have h2 := hc ha
      omega
  have he1none :
      (if w1.endNode = none ∧ endPos = w1.offset then
        some (CMAnchor.lineElem li) else w1.endNode) = none →
      w1.offset < endPos := by
    intro ha
    split at ha
    · exact absurd ha (by simp)
    · rename_i hc
      rw [not_and] at hc
      have h1 := hen ha
      have h2 := hc ha
      omega
  constructor
  · intro a b herr
    rw [setSelEmptyLine] at herr
    split at herr
    · rename_i heqs heqe
      cases herr
      exact ⟨hs1some a heqs, he1some b heqe⟩
    · cases herr
  · intro w2 hok
    rw [setSelEmptyLine] at hok
    split at hok
    · cases hok
    · rename_i s1v e1v hne
      cases hok
      exact ⟨rfl, fun h => hs1none h, fun a ha => hs1some a ha,
        fun h => he1none h, fun a ha => he1some a ha⟩

theorem setSelNewline_spec (doc : CMDoc) (startPos endPos : Nat) (w2 : SetSelWalk)
    (hsn : w2.startNode = none → w2.offset < startPos)
    (hsv : ∀ a, w2.startNode = some a → validAnchor doc a ∧ anchorOffset doc a = startPos)
    (hen : w2.endNode = none → w2.offset < endPos)
    (hev : ∀ a, w2.endNode = some a → validAnchor doc a ∧ anchorOffset doc a = endPos) :
    (∀ a b, setSelNewline startPos endPos w2 = Except.error (a, b) →
      (validAnchor doc a ∧ anchorOffset doc a = startPos) ∧
      (validAnchor doc b ∧ anchorOffset doc b = endPos)) ∧
    (∀ w3, setSelNewline startPos endPos w2 = Except.ok w3 →
      w3.offset = w2.offset + 1 ∧
      (w3.startNode = none → w3.offset ≤ startPos) ∧
      (∀ a, w3.startNode = some a → validAnchor doc a ∧ anchorOffset doc a = startPos) ∧
      (w3.endNode = none → w3.offset ≤ endPos) ∧
      (∀ a, w3.endNode = some a → validAnchor doc a ∧ anchorOffset doc a = endPos)) := by
  have hs1 : (match w2.startNode, w2.lastTextNode with
      | none, some (tl, tn, tlen) =>
        if startPos = w2.offset then some (CMAnchor.text tl tn tlen) else none
      | sn, _ => sn) = w2.startNode := by
    cases hsnv : w2.startNode with
    | some a => cases w2.lastTextNode <;> rfl
    | none =>
      cases w2.lastTextNode with
      | none => rfl
      | some t =>
        rcases t with ⟨tl, tn, tlen⟩
        have := hsn hsnv
        show (if startPos = w2.offset then some (CMAnchor.text tl tn tlen) else none) = none
        rw [if_neg (by omega)]
  have he1 : (match w2.endNode, w2.lastTextNode with
      | none, some (tl, tn, tlen) =>
        if endPos = w2.offset then some (CMAnchor.text tl tn tlen) else none
      | en, _ => en) = w2.endNode := by
    cases henv : w2.endNode with
    | some a => cases w2.lastTextNode <;> rfl
    | none =>
      cases w2.lastTextNode with
      | none => rfl
      | some t =>
        rcases t with ⟨tl, tn, tlen⟩
        have := hen henv
        show (if endPos = w2.offset then some (CMAnchor.text tl tn tlen) else none) = none
        rw [if_neg (by omega)]
  constructor
  · intro a b herr
    rw [setSelNewline] at herr
    rw [hs1, he1] at herr
    split at herr
    · rename_i heqs heqe
      cases herr
      exact ⟨hsv a heqs, hev b heqe⟩
    · cases herr
  · intro w3 hok
    rw [setSelNewline] at hok
    rw [hs1, he1] at hok
    split at hok
    · cases hok
    · rename_i s1v e1v hne
      cases hok
      refine ⟨rfl, ?_, hsv, ?_, hev⟩
      · intro h
        have := hsn h
        show w2.offset + 1 ≤ startPos
        omega
      · intro h
        have := hen h
        show w2.offset + 1 ≤ endPos
        omega

theorem setSelLine_spec (doc : CMDoc) (startPos endPos li : Nat) (w : SetSelWalk)
    (hli : li < doc.length)
    (hoff : w.offset = docStart doc li)
    (hsn : w.startNode = none → w.offset ≤ startPos)
    (hsv : ∀ a, w.startNode = some a → validAnchor doc a ∧ anchorOffset doc a = startPos)
    (hen : w.endNode = none → w.offset ≤ endPos)
    (hev : ∀ a, w.endNode = some a → validAnchor doc a ∧ anchorOffset doc a = endPos) :
    (∀ a b, setSelLine startPos endPos doc.length li (doc.getD li []) w = Except.error (a, b) →
      (validAnchor doc a ∧ anchorOffset doc a = startPos) ∧
      (validAnchor doc b ∧ anchorOffset doc b = endPos)) ∧
    (∀ w2, setSelLine startPos endPos doc.length li (doc.getD li []) w = Except.ok w2 →
      (li + 1 < doc.length → w2.offset = docStart doc (li + 1)) ∧
      (w2.startNode = none → w2.offset ≤ startPos) ∧
      (∀ a, w2.startNode = some a → validAnchor doc a ∧ anchorOffset doc a = startPos) ∧
      (w2.endNode = none → w2.offset ≤ endPos) ∧
      (∀ a, w2.endNode = some a → validAnchor doc a ∧ anchorOffset doc a = endPos)) := by
  have hspec := setSelNodes_spec doc startPos endPos li (doc.getD li []) 0 w hli
    (List.drop_zero _) (by rw [nodeStart_zero]; exact hoff) hsn hsv hen hev
  unfold setSelLine
  cases hinner : setSelNodes startPos endPos li 0 (doc.getD li []) w with
  | error r =>
    rcases r with ⟨a', b'⟩
    constructor
    · intro a b herr
      simp only [] at herr
      cases herr
      exact hspec.1 _ _ hinner
    · intro w2 hok
      simp only [] at hok
      cases hok
  | ok w1 =>
    rcases hspec.2 w1 hinner with ⟨hoff1, hsn1, hsv1, hen1, hev1⟩
    simp only []
    by_cases hE : (doc.getD li []).isEmpty
    · have hLnil : doc.getD li [] = [] := List.isEmpty_iff.mp hE
      have hw1off : w1.offset = docStart doc li := by
        rw [hoff1, hLnil]
        simpa using nodeStart_zero doc li
      have hweq : w.offset = w1.offset := by rw [hoff, hw1off]
      rw [if_pos hE, hweq]
      have hempty := setSelEmptyLine_spec doc startPos endPos li w1 hli hw1off
        (fun h => (hsn1 h).2.1) hsv1 (fun h => (hen1 h).2.1) hev1
      cases hs2 : setSelEmptyLine startPos endPos li w1.offset w1 with
      | error r2 =>
        rcases r2 with ⟨a', b'⟩
        constructor
        · intro a b herr
          simp only [] at herr
          cases herr
          exact hempty.1 _ _ hs2
        · intro w2 hok
          simp only [] at hok
          cases hok
      | ok w2 =>
        rcases hempty.2 w2 hs2 with ⟨hoff2, hsn2, hsv2, hen2, hev2⟩
        simp only []
        by_cases hlast : li + 1 < doc.length
        · rw [if_pos hlast]
          have hnl := setSelNewline_spec doc startPos endPos w2 hsn2 hsv2 hen2 hev2
          constructor
          · intro a b herr
            exact hnl.1 a b herr
          · intro w3 hok
            rcases hnl.2 w3 hok with ⟨hoff3, hsn3, hsv3, hen3, hev3⟩
            refine ⟨?_, hsn3, hsv3, hen3, hev3⟩
            intro _
            rw [hoff3, hoff2, hw1off, docStart_succ doc li hli, hLnil]
            simp [lineLen]
        · rw [if_neg hlast]
          constructor
          · intro a b herr
            cases herr
          · intro w3 hok
            cases hok
            exact ⟨fun h => absurd h hlast, fun h => le_of_lt (hsn2 h), hsv2,
              fun h => le_of_lt (hen2 h), hev2⟩
    · have hLne : doc.getD li [] ≠ [] := fun hh => hE (by rw [hh]; rfl)
      rw [if_neg hE]
      simp only []
      have hw1off : w1.offset = docStart doc li + lineLen (doc.getD li []) := by
        rw [hoff1, Nat.zero_add, nodeStart_full]
      by_cases hlast : li + 1 < doc.length
      · rw [if_pos hlast]
        have hnl := setSelNewline_spec doc startPos endPos w1
          (fun h => (hsn1 h).2.2 hLne) hsv1 (fun h => (hen1 h).2.2 hLne) hev1
        constructor
        · intro a b herr
          exact hnl.1 a b herr
        · intro w3 hok
          rcases hnl.2 w3 hok with ⟨hoff3, hsn3, hsv3, hen3, hev3⟩
          refine ⟨?_, hsn3, hsv3, hen3, hev3⟩
          intro _
          rw [hoff3, hw1off, docStart_succ doc li hli]
      · rw [if_neg hlast]
        constructor
        · intro a b herr
          cases herr
        · intro w3 hok
          cases hok
          exact ⟨fun h => absurd h hlast,
            fun h => le_of_lt ((hsn1 h).2.2 hLne), hsv1,
            fun h => le_of_lt ((hen1 h).2.2 hLne), hev1⟩

theorem setSelLines_spec (doc : CMDoc) (startPos endPos : Nat) :
    ∀ (lines : List CMLine) (li : Nat) (w : SetSelWalk),
    doc.drop li = lines →
    w.offset = docStart doc li →
    (w.startNode = none → w.offset ≤ startPos) →
    (∀ a, w.startNode = some a → validAnchor doc a ∧ anchorOffset doc a = startPos) →
    (w.endNode = none → w.offset ≤ endPos) →
    (∀ a, w.endNode = some a → validAnchor doc a ∧ anchorOffset doc a = endPos) →
    ∀ a b, setSelLines startPos endPos doc.length li lines w = Except.error (a, b) →
      (validAnchor doc a ∧ anchorOffset doc a = startPos) ∧
      (validAnchor doc b ∧ anchorOffset doc b = endPos) := by
  intro lines
  induction lines with
  | nil =>
    intro li w hlines hoff hsn hsv hen hev a b herr
    simp [setSelLines] at herr
  | cons l rest ih =>
    intro li w hlines hoff hsn hsv hen hev a b herr
    obtain ⟨hli, hl, hrest⟩ := drop_cons_facts_lines doc li l rest hlines
    subst hl
    have hline := setSelLine_spec doc startPos endPos li w hli hoff hsn hsv hen hev
    rw [setSelLines] at herr
    cases hres : setSelLine startPos endPos doc.length li (doc.getD li []) w with
    | error r =>
      rw [hres] at herr
      rcases r with ⟨a', b'⟩
      simp only [] at herr
      cases herr
      exact hline.1 _ _ hres
    | ok w1 =>
      rw [hres] at herr
      simp only [] at herr
      rcases hline.2 w1 hres with ⟨hoffn, hsnn, hsvn, henn, hevn⟩
      cases rest with
      | nil => simp [setSelLines] at herr
      | cons l2 rest2 =>
        have hli2 : li + 1 < doc.length :=
          (drop_cons_facts_lines doc (li + 1) l2 rest2 hrest).1
        exact ih (li + 1) w1 hrest (hoffn hli2) hsnn hsvn henn hevn a b herr

theorem setSelection_sound (doc : CMDoc) (startPos endPos : Nat) (a b : CMAnchor)
    (h : OverleafAdapter.setSelection doc startPos endPos = some (a, b)) :
    (validAnchor doc a ∧ anchorOffset doc a = startPos) ∧
    (validAnchor doc b ∧ anchorOffset doc b = endPos) := by
  unfold OverleafAdapter.setSelection at h
  split at h
  · cases h
  · split at h
    · rename_i r hall
      rcases r with ⟨a', b'⟩
      cases h
      exact setSelLines_spec doc startPos endPos doc 0
        { offset := 0, startNode := none, endNode := none, lastTextNode := none }
        (List.drop_zero doc) (by simp [docStart])
        (fun _ => Nat.zero_le _) (fun x hx => by cases hx)
        (fun _ => Nat.zero_le _) (fun x hx => by cases hx) _ _ hall
    · cases h

theorem anchorIsTextOf_true (a : CMAnchor) (li nj : Nat) (h : anchorIsTextOf a li nj = true) :
    ∃ o, a = CMAnchor.text li nj o := by
  cases a with
  | text l n o =>
    simp only [anchorIsTextOf, decide_eq_true_eq] at h
    exact ⟨o, by rw [h.1, h.2]⟩
  | lineElem l => simp [anchorIsTextOf] at h

theorem pendingAt_step (c : CMAnchor) (li nj : Nat) (hp : pendingAt c li nj)
    (hne : anchorIsTextOf c li nj = false) : pendingAt c li (nj + 1) := by
  cases c with
  | text l n o =>
    simp only [anchorIsTextOf, decide_eq_false_iff_not, not_and] at hne
    simp only [pendingAt] at hp ⊢
    rcases hp with h | ⟨h1, h2⟩
    · exact Or.inl h
    · by_cases hnj : n = nj
      · exact absurd hnj (hne h1)
      · exact Or.inr ⟨h1, by omega⟩
  | lineElem l => exact hp

theorem getOffNodes_spec (doc : CMDoc) (a b : CMAnchor) (li : Nat) :
    ∀ (nodes : List CMNode) (nj : Nat) (w : GetOffWalk),
    li < doc.length →
    (doc.getD li []).drop nj = nodes →
    w.offset = nodeStart doc li nj →
    (w.startv = none → pendingAt a li nj) →
    (∀ x, w.startv = some x → x = anchorOffset doc a) →
    (w.endv = none → pendingAt b li nj) →
    (∀ x, w.endv = some x → x = anchorOffset doc b) →
    ¬(w.startv ≠ none ∧ w.endv ≠ none) →
    (∀ x y, getOffNodes a b li nj nodes w = Except.error (x, y) →
      x = anchorOffset doc a ∧ y = anchorOffset doc b) ∧
    (∀ w2, getOffNodes a b li nj nodes w = Except.ok w2 →
      w2.offset = nodeStart doc li (nj + nodes.length) ∧
      (w2.startv = none → pendingAt a li (nj + nodes.length)) ∧
      (∀ x, w2.startv = some x → x = anchorOffset doc a) ∧
      (w2.endv = none → pendingAt b li (nj + nodes.length)) ∧
      (∀ x, w2.endv = some x → x = anchorOffset doc b) ∧
      ¬(w2.startv ≠ none ∧ w2.endv ≠ none)) := by
  intro nodes
  induction nodes with
  | nil =>
    intro nj w hli hnodes hoff hsn hsv hen hev hnb
    constructor
    · intro x y herr
      simp [getOffNodes] at herr
    · intro w2 hok
      simp only [getOffNodes] at hok
      cases hok
      exact ⟨by simpa using hoff, by simpa using hsn, hsv, by simpa using hen, hev, hnb⟩
  | cons n rest ih =>
    intro nj w hli hnodes hoff hsn hsv hen hev hnb
    obtain ⟨hjl, hnth, hrest⟩ := drop_cons_facts _ _ _ _ hnodes
    have hstep : nodeStart doc li (nj + 1) = nodeStart doc li nj + n.length := by
      rw [nodeStart_succ doc li nj hjl, hnth]
    have hs1some : ∀ x,
        (if anchorIsTextOf a li nj then some (w.offset + anchorTextOff a) else w.startv) =
          some x → x = anchorOffset doc a := by
      intro x hx
      split at hx
      · rename_i hc
        cases hx
        obtain ⟨o, ho⟩ := anchorIsTextOf_true a li nj hc
        rw [ho, anchorOffset, anchorTextOff, hoff]
      · exact hsv x hx
    have he1some : ∀ x,
        (if anchorIsTextOf b li nj then some (w.offset + anchorTextOff b) else w.endv) =
          some x → x = anchorOffset doc b := by
      intro x hx
      split at hx
      · rename_i hc
        cases hx
        obtain ⟨o, ho⟩ := anchorIsTextOf_true b li nj hc
        rw [ho, anchorOffset, anchorTextOff, hoff]
      · exact hev x hx
    have hs1none :
        (if anchorIsTextOf a li nj then some (w.offset + anchorTextOff a) else w.startv) =
          none → pendingAt a li (nj + 1) := by
      intro hx
      split at hx
      · exact absurd hx (by simp)
      · rename_i hc
        exact pendingAt_step a li nj (hsn hx) (by simpa using hc)
    have he1none :
        (if anchorIsTextOf b li nj then some (w.offset + anchorTextOff b) else w.endv) =
          none → pendingAt b li (nj + 1) := by
      intro hx
      split at hx
      · exact absurd hx (by simp)
      · rename_i hc
        exact pendingAt_step b li nj (hen hx) (by simpa using hc)
    constructor
    · intro x y herr
      rw [getOffNodes] at herr
      split at herr
      · rename_i heqs heqe
        cases herr
        exact ⟨hs1some x heqs, he1some y heqe⟩
      · rename_i s1v e1v hnotboth
        refine (ih (nj + 1)
          { offset := w.offset + n.length
            startv := if anchorIsTextOf a li nj then some (w.offset + anchorTextOff a)
              else w.startv
            endv := if anchorIsTextOf b li nj then some (w.offset + anchorTextOff b)
              else w.endv }
          hli hrest (by show w.offset + n.length = _; rw [hstep, hoff])
          hs1none hs1some he1none he1some ?_).1 x y herr
        rintro ⟨h1, h2⟩
        rcases Option.ne_none_iff_exists.mp h1 with ⟨x1, hx1⟩
        rcases Option.ne_none_iff_exists.mp h2 with ⟨y1, hy1⟩
        exact hnotboth x1 y1 hx1.symm hy1.symm
    · intro w2 hok
      rw [getOffNodes] at hok
      split at hok
      · cases hok
      · rename_i s1v e1v hnotboth
        have hih := (ih (nj + 1)
          { offset := w.offset + n.length
            startv := if anchorIsTextOf a li nj then some (w.offset + anchorTextOff a)
              else w.startv
            endv := if anchorIsTextOf b li nj then some (w.offset + anchorTextOff b)
              else w.endv }
          hli hrest (by show w.offset + n.length = _; rw [hstep, hoff])
          hs1none hs1some he1none he1some ?_).2 w2 hok
        · rcases hih with ⟨h1, h2, h3, h4, h5, h6⟩
          refine ⟨?_, ?_, h3, ?_, h5, h6⟩
          · rw [h1]
            congr 1
            simp [Nat.add_comm, Nat.add_assoc, Nat.add_left_comm]
          · intro hn2
            have := h2 hn2
            simpa [Nat.add_comm, Nat.add_assoc, Nat.add_left_comm] using this
          · intro hn2
            have := h4 hn2
            simpa [Nat.add_comm, Nat.add_assoc, Nat.add_left_comm] using this
        · rintro ⟨h1, h2⟩
          rcases Option.ne_none_iff_exists.mp h1 with ⟨x1, hx1⟩
          rcases Option.ne_none_iff_exists.mp h2 with ⟨y1, hy1⟩
          exact hnotboth x1 y1 hx1.symm hy1.symm

theorem pendingAt_next_line (doc : CMDoc) (c : CMAnchor) (li : Nat)
    (hv : validAnchor doc c)
    (hp : pendingAt c li (doc.getD li []).length)
    (hne : c ≠ CMAnchor.lineElem li) : pendingAt c (li + 1) 0 := by
  cases c with
  | text l n o =>
    simp only [pendingAt] at hp ⊢
    rcases hp with h | ⟨h1, h2⟩
    · omega
    · rcases hv with ⟨hv1, hv2, hv3⟩
      subst h1
      omega
  | lineElem l =>
    simp only [pendingAt] at hp ⊢
    have : l ≠ li := fun hh => hne (by rw [hh])
    omega

theorem getOffLineTail_spec (doc : CMDoc) (a b : CMAnchor) (li : Nat) (w1 : GetOffWalk)
    (hli : li < doc.length)
    (hva : validAnchor doc a) (hvb : validAnchor doc b)
    (hoff1 : w1.offset = docStart doc li + lineLen (doc.getD li []))
    (hsn : w1.startv = none → pendingAt a li (doc.getD li []).length)
    (hsv : ∀ x, w1.startv = some x → x = anchorOffset doc a)
    (hen : w1.endv = none → pendingAt b li (doc.getD li []).length)
    (hev : ∀ x, w1.endv = some x → x = anchorOffset doc b)
    (hnb : ¬(w1.startv ≠ none ∧ w1.endv ≠ none)) :
    (∀ x y, getOffLineTail a b doc.length li (docStart doc li) w1 = Except.error (x, y) →
      x = anchorOffset doc a ∧ y = anchorOffset doc b) ∧
    (∀ w2, getOffLineTail a b doc.length li (docStart doc li) w1 = Except.ok w2 →
      (li + 1 < doc.length → w2.offset = docStart doc (li + 1)) ∧
      (w2.startv = none → pendingAt a (li + 1) 0) ∧
      (∀ x, w2.startv = some x → x = anchorOffset doc a) ∧
      (w2.endv = none → pendingAt b (li + 1) 0) ∧
      (∀ x, w2.endv = some x → x = anchorOffset doc b) ∧
      ¬(w2.startv ≠ none ∧ w2.endv ≠ none)) := by
  have hs1some : ∀ x,
      (if w1.startv = none ∧ a = CMAnchor.lineElem li then some (docStart doc li)
        else w1.startv) = some x → x = anchorOffset doc a := by
    intro x hx
    split at hx
    · rename_i hc
      cases hx
      rw [hc.2, anchorOffset]
    · exact hsv x hx
  have he1some : ∀ x,
      (if w1.endv = none ∧ b = CMAnchor.lineElem li then some (docStart doc li)
        else w1.endv) = some x → x = anchorOffset doc b := by
    intro x hx
    split at hx
    · rename_i hc
      cases hx
      rw [hc.2, anchorOffset]
    · exact hev x hx
  have hs1none :
      (if w1.startv = none ∧ a = CMAnchor.lineElem li then some (docStart doc li)
        else w1.startv) = none → pendingAt a (li + 1) 0 := by
    intro hx
    split at hx
    · exact absurd hx (by simp)
    · rename_i hc
      rw [not_and] at hc
      exact pendingAt_next_line doc a li hva (hsn hx) (hc hx)
  have he1none :
      (if w1.endv = none ∧ b = CMAnchor.lineElem li then some (docStart doc li)
        else w1.endv) = none → pendingAt b (li + 1) 0 := by
    intro hx
    split at hx
    · exact absurd hx (by simp)
    · rename_i hc
      rw [not_and] at hc
      exact pendingAt_next_line doc b li hvb (hen hx) (hc hx)
  constructor
  · intro x y herr
    rw [getOffLineTail] at herr
    split at herr
    · rename_i heqs heqe
      cases herr
      exact ⟨hs1some x heqs, he1some y heqe⟩
    · split at herr
      · cases herr
      · cases herr
  · intro w2 hok
    rw [getOffLineTail] at hok
    split at hok
    · cases hok
    · rename_i s1v e1v hnotboth
      have hnb2 :
          ¬((if w1.startv = none ∧ a = CMAnchor.lineElem li then some (docStart doc li)
              else w1.startv) ≠ none ∧
            (if w1.endv = none ∧ b = CMAnchor.lineElem li then some (docStart doc li)
              else w1.endv) ≠ none) := by
        rintro ⟨h1, h2⟩
        rcases Option.ne_none_iff_exists.mp h1 with ⟨x1, hx1⟩
        rcases Option.ne_none_iff_exists.mp h2 with ⟨y1, hy1⟩
        exact hnotboth x1 y1 hx1.symm hy1.symm
      split at hok
      · rename_i hlt
        cases hok
        refine ⟨?_, hs1none, hs1some, he1none, he1some, hnb2⟩
        intro _
        show w1.offset + 1 = _
        rw [hoff1, docStart_succ doc li hli]
      · rename_i hge
        cases hok
        exact ⟨fun h => absurd h hge, hs1none, hs1some, he1none, he1some, hnb2⟩

theorem getOffLine_spec (doc : CMDoc) (a b : CMAnchor) (li : Nat) (w : GetOffWalk)
    (hli : li < doc.length)
    (hva : validAnchor doc a) (hvb : validAnchor doc b)
    (hoff : w.offset = docStart doc li)
    (hsn : w.startv = none → pendingAt a li 0)
    (hsv : ∀ x, w.startv = some x → x = anchorOffset doc a)
    (hen : w.endv = none → pendingAt b li 0)
    (hev : ∀ x, w.endv = some x → x = anchorOffset doc b)
    (hnb : ¬(w.startv ≠ none ∧ w.endv ≠ none)) :
    (∀ x y, getOffLine a b doc.length li (doc.getD li []) w = Except.error (x, y) →
      x = anchorOffset doc a ∧ y = anchorOffset doc b) ∧
    (∀ w2, getOffLine a b doc.length li (doc.getD li []) w = Except.ok w2 →
      (li + 1 < doc.length → w2.offset = docStart doc (li + 1)) ∧
      (w2.startv = none → pendingAt a (li + 1) 0) ∧
      (∀ x, w2.startv = some x → x = anchorOffset doc a) ∧
      (w2.endv = none → pendingAt b (li + 1) 0) ∧
      (∀ x, w2.endv = some x → x = anchorOffset doc b) ∧
      ¬(w2.startv ≠ none ∧ w2.endv ≠ none)) := by
  have hspec := getOffNodes_spec doc a b li (doc.getD li []) 0 w hli
    (List.drop_zero _) (by rw [nodeStart_zero]; exact hoff) hsn hsv hen hev hnb
  unfold getOffLine
  cases hinner : getOffNodes a b li 0 (doc.getD li []) w with
  | error r =>
    rcases r with ⟨x', y'⟩
    constructor
    · intro x y herr
      simp only [] at herr
      cases herr
      exact hspec.1 _ _ hinner
    · intro w2 hok
      simp only [] at hok
      cases hok
  | ok w1 =>
    rcases hspec.2 w1 hinner with ⟨hoff1, hsn1, hsv1, hen1, hev1, hnb1⟩
    simp only []
    rw [hoff]
    exact getOffLineTail_spec doc a b li w1 hli hva hvb
      (by rw [hoff1, Nat.zero_add, nodeStart_full])
      (by simpa using hsn1) hsv1 (by simpa using hen1) hev1 hnb1

theorem getOffLines_spec (doc : CMDoc) (a b : CMAnchor)
    (hva : validAnchor doc a) (hvb : validAnchor doc b) :
    ∀ (lines : List CMLine) (li : Nat) (w : GetOffWalk),
    doc.drop li = lines →
    w.offset = docStart doc li →
    (w.startv = none → pendingAt a li 0) →
    (∀ x, w.startv = some x → x = anchorOffset doc a) →
    (w.endv = none → pendingAt b li 0) →
    (∀ x, w.endv = some x → x = anchorOffset doc b) →
    ¬(w.startv ≠ none ∧ w.endv ≠ none) →
    (∀ x y, getOffLines a b doc.length li lines w = Except.error (x, y) →
      x = anchorOffset doc a ∧ y = anchorOffset doc b) ∧
    (∀ w2, getOffLines a b doc.length li lines w = Except.ok w2 →
      (w2.startv = none → pendingAt a (li + lines.length) 0) ∧
      (w2.endv = none → pendingAt b (li + lines.length) 0) ∧
      ¬(w2.startv ≠ none ∧ w2.endv ≠ none)) := by
  intro lines
  induction lines with
  | nil =>
    intro li w hlines hoff hsn hsv hen hev hnb
    constructor
    · intro x y herr
      simp [getOffLines] at herr
    · intro w2 hok
      simp only [getOffLines] at hok
      cases hok
      exact ⟨by simpa using hsn, by simpa using hen, hnb⟩
  | cons l rest ih =>
    intro li w hlines hoff hsn hsv hen hev hnb
    obtain ⟨hli, hl, hrest⟩ := drop_cons_facts_lines doc li l rest hlines
    subst hl
    have hline := getOffLine_spec doc a b li w hli hva hvb hoff hsn hsv hen hev hnb
    rw [getOffLines]
    cases hres : getOffLine a b doc.length li (doc.getD li []) w with
    | error r =>
      rcases r with ⟨x', y'⟩
      constructor
      · intro x y herr
        simp only [] at herr
        cases herr
        exact hline.1 _ _ hres
      · intro w2 hok
        simp only [] at hok
        cases hok
    | ok w1 =>
      simp only []
      rcases hline.2 w1 hres with ⟨hoffn, hsnn, hsvn, henn, hevn, hnbn⟩
      cases rest with
      | nil =>
        constructor
        · intro x y herr
          simp [getOffLines] at herr
        · intro w2 hok
          simp only [getOffLines] at hok
          cases hok
          exact ⟨by simpa using hsnn, by simpa using henn, hnbn⟩
      | cons l2 rest2 =>
        have hli2 : li + 1 < doc.length :=
          (drop_cons_facts_lines doc (li + 1) l2 rest2 hrest).1
        have hnext := ih (li + 1) w1 hrest (hoffn hli2) hsnn hsvn henn hevn hnbn
        constructor
        · intro x y herr
          exact hnext.1 x y herr
        · intro w2 hok
          rcases hnext.2 w2 hok with ⟨h1, h2, h3⟩
          refine ⟨?_, ?_, h3⟩
          · intro hn
            have := h1 hn
            simpa [Nat.add_comm, Nat.add_assoc, Nat.add_left_comm] using this
          · intro hn
            have := h2 hn
            simpa [Nat.add_comm, Nat.add_assoc, Nat.add_left_comm] using this

theorem pendingAt_end_absurd (doc : CMDoc) (c : CMAnchor) (hv : validAnchor doc c)
    (hp : pendingAt c doc.length 0) : False := by
  cases c with
  | text l n o =>
    rcases hv with ⟨hv1, _, _⟩
    simp only [pendingAt] at hp
    omega
  | lineElem l =>
    simp only [pendingAt] at hp
    simp only [validAnchor] at hv
    omega

theorem getSelectionOffsets_correct (doc : CMDoc) (a b : CMAnchor)
    (hva : validAnchor doc a) (hvb : validAnchor doc b) :
    OverleafAdapter.getSelectionOffsets doc a b = (anchorOffset doc a, anchorOffset doc b) := by
  have hspec := getOffLines_spec doc a b hva hvb doc 0
    { offset := 0, startv := none, endv := none }
    (List.drop_zero doc) (by simp [docStart])
    (fun _ => by
      cases a with
      | text l n o =>
        simp only [pendingAt]
        omega
      | lineElem l => exact Nat.zero_le _)
    (fun x hx => by cases hx)
    (fun _ => by
      cases b with
      | text l n o =>
        simp only [pendingAt]
        omega
      | lineElem l => exact Nat.zero_le _)
    (fun x hx => by cases hx)
    (by rintro ⟨h1, _⟩; exact h1 rfl)
  unfold OverleafAdapter.getSelectionOffsets
  cases hrun : getOffLines a b doc.length 0 doc { offset := 0, startv := none, endv := none } with
  | error r =>
    rcases r with ⟨x, y⟩
    rcases hspec.1 x y hrun with ⟨hx, hy⟩
    simp only []
    rw [hx, hy]
  | ok w2 =>
    exfalso
    rcases hspec.2 w2 hrun with ⟨h1, h2, h3⟩
    by_cases hs : w2.startv = none
    · exact pendingAt_end_absurd doc a hva (by simpa using h1 hs)
    · by_cases he : w2.endv = none
      · exact pendingAt_end_absurd doc b hvb (by simpa using h2 he)
      · exact h3 ⟨hs, he⟩

/-- Claim C4: the Overleaf adapter's linear-offset mapping is invertible —
whenever setSelection resolves a pair of offsets to a native range
(including offsets on empty lines and on the implicit newline between
lines), getSelectionOffsets maps that range back to exactly the same pair
of offsets. -/
theorem claim_C4_offset_roundtrip (doc : CMDoc) (startPos endPos : Nat) (a b : CMAnchor)
    (h : OverleafAdapter.setSelection doc startPos endPos = some (a, b)) :
    OverleafAdapter.getSelectionOffsets doc a b = (startPos, endPos) := by
  rcases setSelection_sound doc startPos endPos a b h with ⟨⟨hva, hoa⟩, hvb, hob⟩
  rw [getSelectionOffsets_correct doc a b hva hvb, hoa, hob]

/-- Witness for C4 on the document with lines "ab", "" and "c": offsets
(1, 4) — the 4 being the implicit-newline position right after the empty
line — resolve to a native range and map back to (1, 4). -/
theorem claim_C4_offset_roundtrip_witness :
    OverleafAdapter.setSelection cmDocW 1 4 =
      some (CMAnchor.text 0 0 1, CMAnchor.text 2 0 0) ∧
    OverleafAdapter.getSelectionOffsets cmDocW (CMAnchor.text 0 0 1) (CMAnchor.text 2 0 0) =
      (1, 4) :=
  ⟨by decide,
   claim_C4_offset_roundtrip cmDocW 1 4 (CMAnchor.text 0 0 1) (CMAnchor.text 2 0 0) (by decide)⟩
